import Mathlib

/-!
Verification development for the collective-bubbles simulation package
(modules classes.py, main.py, methods_merge.py).

The Python data model and operations are shallow-embedded here:
a Bubble is an open attribute record, embedded as a record of optional
fields; fallible Python code (attribute errors, name errors, import
errors) is embedded with Except; the pseudo-random Bernoulli draws
consumed by the coalescence engine are supplied as an explicit boolean
stream, and statistical draws (production counts, lifetimes) as explicit
real-valued inputs, so that every statement quantifies over all possible
draw outcomes.
-/

namespace Cobubbles

/-- The open attribute record of classes.py, class Bubble: attributes are
created on demand by keyword, so each canonical attribute is an optional
field; a field equal to none means the Python object does not carry the
attribute at all. -/
structure Bubble where
  volume : Option ℤ := none
  diameter : Option ℝ := none
  xy : Option (ℝ × ℝ) := none
  age : Option ℤ := none
  lifetime : Option ℝ := none

instance : Inhabited Bubble := ⟨{}⟩

/-- methods_merge.py, merge_bubbles_pair (lines 34-52).

The source computes the attribute set as
b1.__dict__.keys() & b1.__dict__.keys() — the intersection of b1's keys
with themselves, i.e. just b1's keys (the comment in the source says
"get intersection of bubbles attributes", so the second b1 is a slip for
b2).  Consequently, for each rule the guard tests presence on b1 only,
and the subsequent read of the attribute on b2 raises AttributeError
when b2 does not carry it; this embedding returns Except.error there.

The local pair (V1, V2) is assigned by the volume rule, then overwritten
by the diameter rule; if the location rule fires while neither previous
rule has run, the source raises NameError on the undefined V1.  Keyword
arguments passed for the new bubble's initialization are embedded as a
partial record kw whose entries the computed rules overwrite. -/
noncomputable def merge_bubbles_pair (b1 b2 kw : Bubble) : Except String Bubble := do
  let (vol?, vpair?) ←
    match b1.volume with
    | none => Except.ok ((kw.volume, none) : Option ℤ × Option (ℝ × ℝ))
    | some v1 =>
      match b2.volume with
      | none => Except.error "AttributeError: volume"
      | some v2 => Except.ok (some (v1 + v2), some ((v1 : ℝ), (v2 : ℝ)))
  let (dia?, vpair?) ←
    match b1.diameter with
    | none => Except.ok ((kw.diameter, vpair?) : Option ℝ × Option (ℝ × ℝ))
    | some d1 =>
      match b2.diameter with
      | none => Except.error "AttributeError: diameter"
      | some d2 =>
        Except.ok (some ((d1 ^ 3 + d2 ^ 3) ^ ((1 : ℝ) / 3)),
          some (d1 ^ 3, d2 ^ 3))
  let xy? ←
    match b1.xy with
    | none => Except.ok kw.xy
    | some p1 =>
      match b2.xy with
      | none => Except.error "AttributeError: xy"
      | some p2 =>
        match vpair? with
        | none => Except.error "NameError: V1"
        | some (V1, V2) =>
          Except.ok (some ((V1 * p1.1 + V2 * p2.1) / (V1 + V2),
            (V1 * p1.2 + V2 * p2.2) / (V1 + V2)))
  Except.ok { volume := vol?, diameter := dia?, xy := xy?,
              age := kw.age, lifetime := kw.lifetime }

/-- Euclidean distance between two planar points, the metric used by
scipy.spatial.distance.pdist on the bubble locations. -/
noncomputable def euclid (p q : ℝ × ℝ) : ℝ :=
  Real.sqrt ((p.1 - q.1) ^ 2 + (p.2 - q.2) ^ 2)

/-- The unordered index pairs (i, j), i < j, in the row-major order
produced by numpy.triu_indices(n, k=1), which is also the condensed
order of scipy.spatial.distance.pdist. -/
def triuPairs (n : ℕ) : List (ℕ × ℕ) :=
  (List.range n).flatMap fun i =>
    ((List.range n).filter fun j => i < j).map fun j => (i, j)

/-- Diameter of the bubble at position i of the list (methods_merge.py
line 94 reads b.diameter on every member; absence would raise there, and
the embedding of merge_bubbles_closest gates on presence accordingly,
so the default value 0 is never exercised). -/
noncomputable def dAt (bs : List Bubble) (i : ℕ) : ℝ :=
  ((bs.getD i {}).diameter).getD 0

/-- Location of the bubble at position i of the list (methods_merge.py
line 95). -/
noncomputable def xyAt (bs : List Bubble) (i : ℕ) : ℝ × ℝ :=
  ((bs.getD i {}).xy).getD (0, 0)

/-- First index of the condensed pair k (array I of methods_merge.py
line 97). -/
def iOf (n k : ℕ) : ℕ := ((triuPairs n).getD k (0, 0)).1

/-- Second index of the condensed pair k (array J of methods_merge.py
line 97). -/
def jOf (n k : ℕ) : ℕ := ((triuPairs n).getD k (0, 0)).2

/-- The gap vector D of methods_merge.py line 98:
pdist(xy) - (d[I] + d[J]) / 2, the surface-to-surface separation of
each condensed pair. -/
noncomputable def gaps (bs : List Bubble) : List ℝ :=
  (triuPairs bs.length).map fun ij =>
    euclid (xyAt bs ij.1) (xyAt bs ij.2) - (dAt bs ij.1 + dAt bs ij.2) / 2

/-- Gap of the condensed pair k. -/
noncomputable def gapAt (bs : List Bubble) (k : ℕ) : ℝ :=
  (gaps bs).getD k 0

/-- np.argsort(D): the pair indices sorted by non-decreasing gap (a
stable sort stands in for numpy's argsort; no property below depends on
the order of ties). -/
noncomputable def argsortGaps (bs : List Bubble) : List ℕ :=
  @List.insertionSort ℕ (fun a b => gapAt bs a ≤ gapAt bs b)
    (fun a b => Real.decidableLE _ _) (List.range (gaps bs).length)

/-- k_sort of methods_merge.py line 100: the argsort reversed into a
stack sorted by decreasing gap, popped from its bottom (list end). -/
noncomputable def kStack (bs : List Bubble) : List ℕ :=
  (argsortGaps bs).reverse

/-- One successful pair merge inside merge_bubbles_closest, recorded for
the statements below: the original condensed pair (i, j), the two list
positions popped from the mutated population (hi first, then lo), the
two bubbles removed, and the merged bubble appended. -/
structure MergeEvent where
  i : ℕ
  j : ℕ
  hi : ℕ
  lo : ℕ
  b1 : Bubble
  b2 : Bubble
  out : Bubble

/-- The mutable state of the while-loop of merge_bubbles_closest (lines
101-121), instrumented with the list of candidate pairs popped from the
stack (popped) and the successful merges (events); err records a raised
exception, which in Python aborts the loop with the population left in
its partially mutated state. -/
structure LoopState where
  bubbles : List Bubble
  merged : List ℕ
  t : ℕ
  popped : List ℕ
  events : List MergeEvent
  err : Option String := none

/-- Corrected position of original index x in the mutated population:
x shifted down by the number of already-consumed indices numerically
below x (the i_sh/j_sh correction of methods_merge.py lines 114-115). -/
def pairShift (M : List ℕ) (x : ℕ) : ℕ :=
  x - (M.filter fun m => m < x).length

/-- The higher of the two corrected positions of pair k (popped first,
line 117). -/
def stepHi (n : ℕ) (M : List ℕ) (k : ℕ) : ℕ :=
  max (pairShift M (iOf n k)) (pairShift M (jOf n k))

/-- The lower of the two corrected positions of pair k (popped second,
line 118). -/
def stepLo (n : ℕ) (M : List ℕ) (k : ℕ) : ℕ :=
  min (pairShift M (iOf n k)) (pairShift M (jOf n k))

/-- The first bubble popped for pair k (line 117). -/
noncomputable def stepB1 (bs : List Bubble) (k : ℕ) (st : LoopState) : Bubble :=
  st.bubbles.getD (stepHi bs.length st.merged k) {}

/-- The population after the first pop. -/
noncomputable def stepRest1 (bs : List Bubble) (k : ℕ) (st : LoopState) :
    List Bubble :=
  st.bubbles.eraseIdx (stepHi bs.length st.merged k)

/-- The second bubble popped for pair k (line 118). -/
noncomputable def stepB2 (bs : List Bubble) (k : ℕ) (st : LoopState) : Bubble :=
  (stepRest1 bs k st).getD (stepLo bs.length st.merged k) {}

/-- The population after both pops. -/
noncomputable def stepRest2 (bs : List Bubble) (k : ℕ) (st : LoopState) :
    List Bubble :=
  (stepRest1 bs k st).eraseIdx (stepLo bs.length st.merged k)

/-- The merge attempt for pair k once the gates have passed
(methods_merge.py lines 113-121): correct both indices by the number of
already-consumed indices below them, pop the higher corrected position,
then the lower one, merge the two removed bubbles, append the result
and extend merged with [i, j].  An error raised by merge_bubbles_pair
leaves the two bubbles already removed (the Python exception propagates
after the pops) and is recorded in err. -/
noncomputable def mergeStep (bs : List Bubble) (kw : Bubble) (k : ℕ)
    (st : LoopState) : LoopState :=
  match merge_bubbles_pair (stepB1 bs k st) (stepB2 bs k st) kw with
  | Except.error e =>
    { st with bubbles := stepRest2 bs k st, t := st.t + 1, err := some e }
  | Except.ok b =>
    { bubbles := stepRest2 bs k st ++ [b]
      merged := st.merged ++ [iOf bs.length k, jOf bs.length k]
      t := st.t + 1
      popped := st.popped
      events := st.events ++ [⟨iOf bs.length k, jOf bs.length k,
        stepHi bs.length st.merged k, stepLo bs.length st.merged k,
        stepB1 bs k st, stepB2 bs k st, b⟩]
      err := none }

/-- The while-loop of merge_bubbles_closest (methods_merge.py lines
103-121), embedded as structural recursion over the ascending tail of
the stack: the source pops k_sort from its end while the stack is
nonempty and the bottom gap is below max_dist, so the loop consumes the
reverse of k_sort from its head under the same guard.

Per iteration (source order): pop k; skip when either index of the pair
was already consumed (i in merged or j in merged); otherwise draw the
Bernoulli gate np.random.binomial(1, proba) — embedded as the next
value of the stream draws — and skip on failure; otherwise perform the
merge attempt mergeStep; an error aborts the loop, as the Python
exception would. -/
noncomputable def mergeLoop (bs : List Bubble) (max_dist : ℝ)
    (draws : ℕ → Bool) (kw : Bubble) :
    List ℕ → LoopState → LoopState
  | [], st => st
  | k :: ks, st =>
    if gapAt bs k < max_dist then
      if iOf bs.length k ∈ st.merged ∨ jOf bs.length k ∈ st.merged then
        mergeLoop bs max_dist draws kw ks { st with popped := st.popped ++ [k] }
      else if draws st.t = false then
        mergeLoop bs max_dist draws kw ks
          { st with popped := st.popped ++ [k], t := st.t + 1 }
      else
        match (mergeStep bs kw k
            { st with popped := st.popped ++ [k] }).err with
        | some _ => mergeStep bs kw k { st with popped := st.popped ++ [k] }
        | none => mergeLoop bs max_dist draws kw ks
            (mergeStep bs kw k { st with popped := st.popped ++ [k] })
    else st

/-- Initial loop state: the population as passed in, nothing merged,
no draws consumed. -/
def initState (bs : List Bubble) : LoopState :=
  { bubbles := bs, merged := [], t := 0, popped := [], events := [] }

/-- Full instrumented run of merge_bubbles_closest (methods_merge.py
lines 92-141, plotting elided).  Reading b.diameter (line 94) or b.xy
(line 95) on a bubble that does not carry the attribute raises
AttributeError before any mutation; on an empty population the
comprehensions read nothing but scipy.spatial.distance.pdist (line 98)
then raises ValueError, because the empty location list converts to a
1-dimensional array (on a nonempty population the location list is a
2-dimensional n-by-2 array and pdist succeeds, returning the empty
condensed vector at n = 1); otherwise the stack is built and the loop
runs. -/
noncomputable def mergeClosestRun (bs : List Bubble) (max_dist : ℝ)
    (draws : ℕ → Bool) (kw : Bubble) : LoopState :=
  if (bs.all fun b => b.diameter.isSome) && (bs.all fun b => b.xy.isSome) then
    if bs.isEmpty then
      { initState bs with
          err := some "ValueError: A 2-dimensional array must be passed." }
    else
      mergeLoop bs max_dist draws kw (kStack bs).reverse (initState bs)
  else
    { initState bs with err := some "AttributeError" }

/-- merge_bubbles_closest as observed by callers: the updated population,
or the exception that aborted it. -/
noncomputable def merge_bubbles_closest (bs : List Bubble) (max_dist : ℝ)
    (draws : ℕ → Bool) (kw : Bubble) : Except String (List Bubble) :=
  let st := mergeClosestRun bs max_dist draws kw
  match st.err with
  | some e => Except.error e
  | none => Except.ok st.bubbles

/-- The bubbles of the input population that have not been consumed by a
merge: positions of the original list outside the consumed-index list,
in their original order.  Used to state what the in-place mutation of
merge_bubbles_closest preserves. -/
def survivors (orig : List Bubble) (merged : List ℕ) : List Bubble :=
  (((List.range orig.length).filter fun x => !(x ∈ merged : Bool)).map
    fun x => orig.getD x {})

/-- classes.py SimuVolumesInt._format_bubbles (lines 369-378): the
volumes of the population, as integers, reduced by np.unique with
return_counts to (sorted distinct volume, multiplicity) pairs; reading
b.volume on a bubble without the attribute raises. -/
def formatVolumesInt (bs : List Bubble) : Except String (List (ℤ × ℕ)) :=
  if bs.all fun b => b.volume.isSome then
    let V := bs.map fun b => b.volume.getD 0
    Except.ok ((V.dedup.insertionSort (· ≤ ·)).map fun v => (v, V.count v))
  else Except.error "AttributeError: volume"

/-- The count vector h of np.histogram(ds, bins): one count per
consecutive pair of bin edges, each bin the half-open interval
[bins[i], bins[i+1]) except the last bin, which also includes its right
edge; values outside [bins[0], bins[-1]] are counted by no bin. -/
noncomputable def histList (ds : List ℝ) : List ℝ → List ℕ
  | [] => []
  | [_] => []
  | [a, b] => [ds.countP fun d => decide (a ≤ d) && decide (d ≤ b)]
  | a :: b :: c :: rest =>
    (ds.countP fun d => decide (a ≤ d) && decide (d < b)) ::
      histList ds (b :: c :: rest)

/-- classes.py SimuDiametersHist._format_bubbles (lines 664-668): the
population's diameters histogrammed over the configured bin edges by
np.histogram, keeping only the bins with a positive count as
(bin index, count) pairs, as built by np.where(h > 0) and
dict(zip(k, h[k])). -/
noncomputable def formatDiametersHist (bins : List ℝ) (bs : List Bubble) :
    Except String (List (ℕ × ℕ)) :=
  if bs.all fun b => b.diameter.isSome then
    let ds := bs.map fun b => b.diameter.getD 0
    Except.ok ((histList ds bins).enum.filter fun p => 0 < p.2)
  else Except.error "AttributeError: diameter"

/-- The four pluggable phases of one simulation step together with the
one bit of bubble-template configuration that BaseSimu.step_advance
consults: whether the string 'lifetime' occurs in self._bubble_init.
BaseSimu's own phase methods (classes.py lines 228-290) are all the
identity; subclasses override them. -/
structure Variant where
  create : List Bubble → List Bubble
  burst : List Bubble → List Bubble
  move : List Bubble → List Bubble
  merge : List Bubble → List Bubble
  bubbleInitHasLifetime : Bool

/-- Increment the lifetime attribute (the statement b.lifetime += 1 of
classes.py line 171). -/
def bumpLifetime (b : Bubble) : Bubble :=
  { b with lifetime := b.lifetime.map fun t => t + 1 }

/-- classes.py BaseSimu.step_advance (lines 141-172): the four phases in
order — create, burst, move, merge — then, when 'lifetime' occurs in
self._bubble_init, b.lifetime += 1 for every bubble of the merged
population.  No attribute named age is touched.  A bubble without the
lifetime attribute makes the increment raise AttributeError (the source
then leaves the loop partially applied; only the success path is
stated below). -/
def step_advance (v : Variant) (bs : List Bubble) : Except String (List Bubble) :=
  let out := v.merge (v.move (v.burst (v.create bs)))
  if v.bubbleInitHasLifetime then
    if out.all fun b => b.lifetime.isSome then
      Except.ok (out.map bumpLifetime)
    else Except.error "AttributeError: lifetime"
  else Except.ok out

/-- The phase configuration of classes.py SimuDiametersHist: phases
inherited from BaseSimu (identity) and _bubble_init = ⦃lifetime: 0⦄
(line 654), so step_advance's final loop increments lifetimes. -/
def simuDiametersHistVariant : Variant :=
  { create := id, burst := id, move := id, merge := id,
    bubbleInitHasLifetime := true }

/-- Python 3 round(x) on a float: round half to even (numpy rounds the
same way), as applied by abs(int(round(...))) in the create phases. -/
noncomputable def pythonRound (x : ℝ) : ℤ :=
  if x - ⌊x⌋ < 1 / 2 then ⌊x⌋
  else if 1 / 2 < x - ⌊x⌋ then ⌊x⌋ + 1
  else if Even ⌊x⌋ then ⌊x⌋ else ⌊x⌋ + 1

/-- main.py SimuA._create_bubbles (lines 60-67): append n copies of the
bubble template, n = abs(int(round(draw))) for the normal draw
stats.norm.rvs(rate_prod_avg, rate_prod_std) — the absolute value of
the rounded draw, so a negative draw produces |round(draw)| bubbles. -/
noncomputable def simuA_create_bubbles (draw : ℝ) (bubble_init : Bubble)
    (bs : List Bubble) : List Bubble :=
  bs ++ List.replicate (pythonRound draw).natAbs bubble_init

/-- main.py SimuD._create_bubbles (lines 285-291): same count
n = abs(int(round(draw))), each new bubble additionally assigned a
lifetime drawn from the configured distribution (stream tau). -/
noncomputable def simuD_create_bubbles (draw : ℝ) (tau : ℕ → ℝ)
    (bubble_init : Bubble) (bs : List Bubble) : List Bubble :=
  bs ++ (List.range (pythonRound draw).natAbs).map fun idx =>
    { bubble_init with lifetime := some (tau idx) }

/-- The names bound at module level in main.py: its imports (lines
11-20) and its own definitions (lines 24, 33, 40, 113, 170, 202, 254).
Neither PARAMS_DEFAULT nor BUBBLE_INIT is among them: main.py spells
these dictionaries _params_default and _bubble_init. -/
def mainModuleNames : List String :=
  ["np", "stats", "special", "imp", "split", "join", "splitext", "pi",
   "classes", "SimuVolumesInt", "Bubble", "merge_bubbles_closest",
   "_params_default", "_bubble_init",
   "SimuA", "SimuB", "SimuB2", "SimuC", "SimuD"]

/-- The statement from .main import PARAMS_DEFAULT, BUBBLE_INIT opening
BaseSimu.__init__ (classes.py line 117): it succeeds only if both names
are bound in main.py's module namespace. -/
def baseSimu_init_imports : Except String Unit :=
  if ("PARAMS_DEFAULT" ∈ mainModuleNames) ∧ ("BUBBLE_INIT" ∈ mainModuleNames)
  then Except.ok ()
  else Except.error "ImportError: cannot import name PARAMS_DEFAULT from cobubbles.main"

/-- Engine state produced by construction: the current population and
the history of raw snapshots (BaseSimu._format_bubbles is a copy). -/
structure BaseSimuState where
  current : List Bubble
  history : List (List Bubble)

/-- The seeding that classes.py lines 123-131 would perform once the
name resolution of line 117 succeeded: take the population passed in the keyword
arguments if present, otherwise n_bubbles copies of the bubble template,
and capture snapshot 0. -/
def baseSimu_seed (n_bubbles : ℕ) (bubble_init : Bubble)
    (kwBubbles : Option (List Bubble)) : BaseSimuState :=
  let bubbles := kwBubbles.getD (List.replicate n_bubbles bubble_init)
  { current := bubbles, history := [bubbles] }

/-- classes.py BaseSimu.__init__ (lines 106-132): the import of line 117
runs before anything else; only if it resolves does the seeding of
lines 123-131 execute. -/
def baseSimu_init (n_bubbles : ℕ) (bubble_init : Bubble)
    (kwBubbles : Option (List Bubble)) : Except String BaseSimuState :=
  match baseSimu_init_imports with
  | Except.error e => Except.error e
  | Except.ok _ => Except.ok (baseSimu_seed n_bubbles bubble_init kwBubbles)

/-- A stored per-step snapshot of the volume-count simulation: the
(volume, count) pairs of one iteration of self.bubbles. -/
abbrev Snap := List (ℤ × ℕ)

/-- Count held by a snapshot for volume v (0 when the key is absent). -/
def snapCount (s : Snap) (v : ℤ) : ℕ :=
  ((s.filter fun p => p.1 == v).map fun p => p.2).sum

/-- pandas label-based row selection self.bubbles_df.loc[slice(a, b)]
on the iter level of the index (classes.py line 598): label slicing is
inclusive of both endpoints, so it keeps the snapshots of iterations i
with a ≤ i ≤ b. -/
def selectIters (h : List Snap) (a b : ℕ) : List Snap :=
  (h.enum.filter fun p => decide (a ≤ p.1) && decide (p.1 ≤ b)).map fun p => p.2

/-- classes.py SimuVolumesInt.get_histogram (lines 579-606): group the
selected iterations by volume and sum the counts; a volume absent from
every selected snapshot is simply absent from the result, i.e. counted
as zero. -/
def get_histogram (h : List Snap) (a b : ℕ) (v : ℤ) : ℕ :=
  ((selectIters h a b).map fun s => snapCount s v).sum

/-- The argument forms accepted by classes.py _format_slice
(lines 31-58). -/
inductive SliceArg
  | noneArg : SliceArg
  | intArg : ℤ → SliceArg
  | tupleArg : Option ℤ → Option ℤ → Option ℤ → SliceArg
  | sliceArg : Option ℤ → Option ℤ → Option ℤ → SliceArg

/-- classes.py _format_slice (lines 31-58), result as (start, stop,
step).  The tuple branch (line 51) evaluates len(slice_inter) — a
misspelling of slice_iter — so passing a 3-tuple raises NameError
instead of building slice(*slice_iter). -/
def formatSlice : SliceArg → Except String (Option ℤ × Option ℤ × Option ℤ)
  | SliceArg.noneArg => Except.ok (none, none, none)
  | SliceArg.intArg k => Except.ok (none, none, some k)
  | SliceArg.tupleArg _ _ _ => Except.error "NameError: name slice_inter is not defined"
  | SliceArg.sliceArg x y z => Except.ok (x, y, z)

/-- Contiguous inclusive iteration ranges r₁, …, rₖ forming a partition
of the inclusive range [a, b]: nonempty, starting at a, ending at b,
each range nonempty as an interval, and each range starting right after
the previous one ends. -/
def IsPartition (a b : ℕ) (rs : List (ℕ × ℕ)) : Prop :=
  rs ≠ [] ∧ (rs.headD (0, 0)).1 = a ∧ (rs.getLastD (0, 0)).2 = b ∧
    (∀ r ∈ rs, r.1 ≤ r.2) ∧ List.Chain' (fun r s => s.1 = r.2 + 1) rs

/-- What one successful merge event satisfies relative to the input
population: the popped pair is increasing and in range, and the two
removed bubbles are exactly the input bubbles at the pair's original
indices. -/
def EventOK (orig : List Bubble) (e : MergeEvent) : Prop :=
  e.i < e.j ∧ e.j < orig.length ∧
    e.b1 = orig.getD e.j {} ∧ e.b2 = orig.getD e.i {}

/-- Loop invariant of merge_bubbles_closest, bookkeeping part: the
consumed-index list is exactly the flattened pairs of the successful
merges, has no duplicates, and stays in range; every event removed two
original bubbles at its pair's indices; and the idx-th merge popped its
two positions inside the surviving-originals prefix of the mutated
list (of length orig.length - 2*idx), so a merged output — which lives
in the appended suffix — is never consumed by a later merge. -/
def InvCore (orig : List Bubble) (st : LoopState) : Prop :=
  st.merged = st.events.flatMap (fun e => [e.i, e.j]) ∧
  st.merged.Nodup ∧
  (∀ m ∈ st.merged, m < orig.length) ∧
  (∀ e ∈ st.events, EventOK orig e) ∧
  (∀ p ∈ st.events.enum, 2 * p.1 + 2 ≤ orig.length ∧
    p.2.hi < orig.length - 2 * p.1 ∧ p.2.lo + 1 < orig.length - 2 * p.1)

/-- Full loop invariant: the mutated population is the unconsumed
originals, in order, followed by the merged outputs, in merge order. -/
def Inv (orig : List Bubble) (st : LoopState) : Prop :=
  InvCore orig st ∧
  st.bubbles = survivors orig st.merged ++ st.events.map (fun e => e.out)

/-- A three-bubble population on which the candidate loop aborts:
bubble 1 carries volume while bubble 0 does not, so the first merge
attempt (the fully overlapping pair (0, 1), gap -1) raises
AttributeError inside merge_bubbles_pair, and the remaining candidate
pairs — whose gaps also lie below the threshold — are never
considered. -/
noncomputable def c2pop : List Bubble :=
  [{ diameter := some 1, xy := some (0, 0) },
    { volume := some 1, diameter := some 1, xy := some (0, 0) },
    { diameter := some 1, xy := some (1 / 4, 0) }]

/-! ### Theorems -/

/-- Claim C8 (code bug): merge_bubbles_pair is specified (and commented
in the source) to compute the attribute intersection of its two inputs
and silently omit attributes not present on both; the source instead
intersects b1's keys with themselves, so an attribute present on b1 but
not on b2 raises AttributeError — here, a b1 carrying volume merged
with an attribute-less b2 errors instead of omitting volume — while the
converse direction (attribute only on b2) is silently omitted as
specified. -/
theorem merge_pair_missing_attr_error :
    merge_bubbles_pair { volume := some 1 } {} {} =
      Except.error "AttributeError: volume" ∧
    merge_bubbles_pair {} { volume := some 1 } {} = Except.ok {} := by
  constructor <;> rfl

/-- Claim C1 (counterexample): it is not true that any two bubbles both
carrying volume merge into a bubble of summed volume: when b1
additionally carries diameter and b2 does not, merge_bubbles_pair
raises AttributeError instead of returning a bubble (the attribute set
is computed from b1 alone). -/
theorem merge_pair_volume_pair_error :
    ({ volume := some 1, diameter := some 1 } : Bubble).volume = some 1 ∧
    ({ volume := some 2 } : Bubble).volume = some 2 ∧
    merge_bubbles_pair { volume := some 1, diameter := some 1 }
      { volume := some 2 } {} = Except.error "AttributeError: diameter" := by
  refine ⟨rfl, rfl, rfl⟩

/-- Claim C1 (amended): provided every merge-relevant attribute carried
by b1 (volume, diameter, xy) is also carried by b2 — which makes
merge_bubbles_pair return a bubble — volume is conserved additively,
and the merged diameter is the cube-root combination
(d1³ + d2³)^(1/3), whose cube is exactly d1³ + d2³ for nonnegative
diameters. -/
theorem merge_pair_conservation (b1 b2 : Bubble)
    (hvol : b1.volume.isSome → b2.volume.isSome)
    (hdia : b1.diameter.isSome → b2.diameter.isSome)
    (hxy : b1.xy.isSome → b2.xy.isSome) :
    (∀ v1 v2, b1.volume = some v1 → b2.volume = some v2 →
      (merge_bubbles_pair b1 b2 {}).map (fun b => b.volume) =
        Except.ok (some (v1 + v2))) ∧
    (∀ d1 d2, b1.diameter = some d1 → b2.diameter = some d2 →
      (merge_bubbles_pair b1 b2 {}).map (fun b => b.diameter) =
        Except.ok (some ((d1 ^ 3 + d2 ^ 3) ^ ((1 : ℝ) / 3))) ∧
      (0 ≤ d1 → 0 ≤ d2 →
        ((d1 ^ 3 + d2 ^ 3) ^ ((1 : ℝ) / 3)) ^ (3 : ℕ) = d1 ^ 3 + d2 ^ 3)) := by
  constructor
  · intro v1 v2 hv1 hv2
    have hd : b1.diameter = none ∨ ∃ d1 d2, b1.diameter = some d1 ∧ b2.diameter = some d2 := by
      cases h1 : b1.diameter with
      | none => exact Or.inl rfl
      | some d1 =>
        have h2 := hdia (by rw [h1]; rfl)
        rcases Option.isSome_iff_exists.mp h2 with ⟨d2, h2⟩
        exact Or.inr ⟨d1, d2, rfl, h2⟩
    have hx : b1.xy = none ∨ ∃ p1 p2, b1.xy = some p1 ∧ b2.xy = some p2 := by
      cases h1 : b1.xy with
      | none => exact Or.inl rfl
      | some p1 =>
        have h2 := hxy (by rw [h1]; rfl)
        rcases Option.isSome_iff_exists.mp h2 with ⟨p2, h2⟩
        exact Or.inr ⟨p1, p2, rfl, h2⟩
    rcases hd with hd | ⟨d1, d2, hd1, hd2⟩
    · rcases hx with hx | ⟨p1, p2, hx1, hx2⟩
      · unfold merge_bubbles_pair
        rw [hv1, hv2, hd, hx]
        rfl
      · unfold merge_bubbles_pair
        rw [hv1, hv2, hd, hx1, hx2]
        rfl
    · rcases hx with hx | ⟨p1, p2, hx1, hx2⟩
      · unfold merge_bubbles_pair
        rw [hv1, hv2, hd1, hd2, hx]
        rfl
      · unfold merge_bubbles_pair
        rw [hv1, hv2, hd1, hd2, hx1, hx2]
        rfl
  · intro d1 d2 hd1 hd2
    have hv : b1.volume = none ∨ ∃ v1 v2, b1.volume = some v1 ∧ b2.volume = some v2 := by
      cases h1 : b1.volume with
      | none => exact Or.inl rfl
      | some v1 =>
        have h2 := hvol (by rw [h1]; rfl)
        rcases Option.isSome_iff_exists.mp h2 with ⟨v2, h2⟩
        exact Or.inr ⟨v1, v2, rfl, h2⟩
    have hx : b1.xy = none ∨ ∃ p1 p2, b1.xy = some p1 ∧ b2.xy = some p2 := by
      cases h1 : b1.xy with
      | none => exact Or.inl rfl
      | some p1 =>
        have h2 := hxy (by rw [h1]; rfl)
        rcases Option.isSome_iff_exists.mp h2 with ⟨p2, h2⟩
        exact Or.inr ⟨p1, p2, rfl, h2⟩
    have hcube : 0 ≤ d1 → 0 ≤ d2 →
        ((d1 ^ 3 + d2 ^ 3) ^ ((1 : ℝ) / 3)) ^ (3 : ℕ) = d1 ^ 3 + d2 ^ 3 := by
      intro h1 h2
      have hx0 : (0 : ℝ) ≤ d1 ^ 3 + d2 ^ 3 := by positivity
      rw [← Real.rpow_natCast ((d1 ^ 3 + d2 ^ 3) ^ ((1 : ℝ) / 3)) 3,
        ← Real.rpow_mul hx0]
      norm_num
    refine ⟨?_, hcube⟩
    rcases hv with hv | ⟨v1, v2, hv1, hv2⟩
    · rcases hx with hx | ⟨p1, p2, hx1, hx2⟩
      · unfold merge_bubbles_pair
        rw [hv, hd1, hd2, hx]
        rfl
      · unfold merge_bubbles_pair
        rw [hv, hd1, hd2, hx1, hx2]
        rfl
    · rcases hx with hx | ⟨p1, p2, hx1, hx2⟩
      · unfold merge_bubbles_pair
        rw [hv1, hv2, hd1, hd2, hx]
        rfl
      · unfold merge_bubbles_pair
        rw [hv1, hv2, hd1, hd2, hx1, hx2]
        rfl

/-- Claim C1 witness: two bubbles both carrying volume (1 and 2) and
diameter (1 and 1) merge into a bubble of volume 3. -/
theorem merge_pair_conservation_witness :
    (merge_bubbles_pair { volume := some 1, diameter := some 1 }
      { volume := some 2, diameter := some 1 } {}).map (fun b => b.volume) =
      Except.ok (some (1 + 2)) := by
  exact (merge_pair_conservation
    { volume := some 1, diameter := some 1 }
    { volume := some 2, diameter := some 1 }
    (fun _ => rfl) (fun _ => rfl) (fun h => by simp at h)).1 1 2 rfl rfl

/-- Claim C5 (code bug): constructing any simulation engine fails.
BaseSimu.__init__ begins with from .main import PARAMS_DEFAULT,
BUBBLE_INIT, but main.py binds no such names (it spells them
_params_default and _bubble_init), so every construction raises
ImportError before the population is seeded or snapshot 0 captured. -/
theorem baseSimu_init_import_error (n : ℕ) (init : Bubble)
    (kwB : Option (List Bubble)) :
    baseSimu_init n init kwB =
      Except.error "ImportError: cannot import name PARAMS_DEFAULT from cobubbles.main" ∧
    "PARAMS_DEFAULT" ∉ mainModuleNames := by
  constructor
  · rfl
  · decide

/-- Claim C7 (counterexample): step_advance does not increment ages.
On the SimuDiametersHist configuration (identity phases, lifetime in
the bubble template) a bubble entering with age 0 and lifetime 0 leaves
the step with its age still 0 (and its lifetime incremented), not with
age 0 + 1 as the claim states. -/
theorem step_advance_age_not_incremented :
    step_advance simuDiametersHistVariant
      [{ age := some 0, lifetime := some 0 }] =
      Except.ok [{ age := some 0, lifetime := some ((0 : ℝ) + 1) }] ∧
    (some (0 : ℤ) ≠ some (0 + 1)) := by
  constructor
  · rfl
  · decide

/-- Claim C7 (amended): the post-merge bookkeeping of step_advance
increments the lifetime attribute, not age: when 'lifetime' occurs in
the bubble template and every post-merge bubble carries it, every
lifetime is incremented by exactly 1 and every age is left exactly as
the merge phase produced it. -/
theorem step_advance_lifetime_increment (v : Variant) (bs : List Bubble)
    (hlt : v.bubbleInitHasLifetime = true)
    (hall : ∀ b ∈ v.merge (v.move (v.burst (v.create bs))), b.lifetime.isSome) :
    step_advance v bs =
      Except.ok ((v.merge (v.move (v.burst (v.create bs)))).map bumpLifetime) ∧
    ((v.merge (v.move (v.burst (v.create bs)))).map bumpLifetime).map
        (fun b => b.age) =
      (v.merge (v.move (v.burst (v.create bs)))).map (fun b => b.age) := by
  constructor
  · unfold step_advance
    rw [hlt]
    simp only [if_true]
    rw [if_pos]
    exact List.all_eq_true.mpr fun b hb => hall b hb
  · simp [bumpLifetime]

/-- Claim C7 witness: the amended statement applied to the
SimuDiametersHist configuration and a single bubble carrying
lifetime 0. -/
theorem step_advance_lifetime_increment_witness :
    step_advance simuDiametersHistVariant [{ lifetime := some 0 }] =
      Except.ok (([{ lifetime := some 0 }] : List Bubble).map bumpLifetime) := by
  exact (step_advance_lifetime_increment simuDiametersHistVariant
    [{ lifetime := some 0 }] rfl (by
      intro b hb
      have hb1 : b = { lifetime := some 0 } := List.mem_singleton.mp hb
      rw [hb1]
      rfl)).1

/-- Claim C9 (counterexample): a negative production draw is not
clamped to zero: the draw -5 creates abs(round(-5)) = 5 bubbles. -/
theorem create_bubbles_negative_draw_not_clamped :
    (-5 : ℝ) < 0 ∧ (simuA_create_bubbles (-5) {} []).length = 5 := by
  have hfl : ⌊(-5 : ℝ)⌋ = -5 := by norm_num
  have hr : pythonRound (-5) = -5 := by
    unfold pythonRound
    rw [hfl]
    norm_num
  constructor
  · norm_num
  · simp [simuA_create_bubbles, hr]

/-- Claim C9 (amended): in both create phases the number of appended
bubbles equals the absolute value of the round-half-to-even rounding of
the drawn sample — negative draws are reflected by abs(), not clamped
to zero, and never resampled. -/
theorem create_bubbles_count_abs_round (s : ℝ) (tau : ℕ → ℝ)
    (init : Bubble) (bs : List Bubble) :
    (simuA_create_bubbles s init bs).length =
      bs.length + (pythonRound s).natAbs ∧
    (simuD_create_bubbles s tau init bs).length =
      bs.length + (pythonRound s).natAbs := by
  constructor <;> simp [simuA_create_bubbles, simuD_create_bubbles]

/-- Counting a disjunction of disjoint predicates splits into a sum. -/
theorem cb_countP_or_disjoint {α : Type} (p q : α → Bool) (l : List α)
    (hd : ∀ x ∈ l, ¬(p x = true ∧ q x = true)) :
    l.countP (fun x => p x || q x) = l.countP p + l.countP q := by
  induction l with
  | nil => simp
  | cons a l ih =>
    have hda := hd a (List.mem_cons_self a l)
    have ih2 := ih fun x hx => hd x (List.mem_cons_of_mem a hx)
    cases hp : p a <;> cases hq : q a
    · simp [List.countP_cons, hp, hq, ih2]
    · simp [List.countP_cons, hp, hq, ih2]
      omega
    · simp [List.countP_cons, hp, hq, ih2]
      omega
    · exact absurd ⟨hp, hq⟩ hda

/-- Summing a mapped value over a filter by a disjunction of disjoint
predicates splits into two sums. -/
theorem cb_sum_map_filter_split {α : Type} (f : α → ℕ) (p q pr : α → Bool)
    (l : List α) (hpr : ∀ x ∈ l, pr x = (p x || q x))
    (hd : ∀ x ∈ l, ¬(p x = true ∧ q x = true)) :
    ((l.filter pr).map f).sum =
      ((l.filter p).map f).sum + ((l.filter q).map f).sum := by
  induction l with
  | nil => simp
  | cons a l ih =>
    have ha := hpr a (List.mem_cons_self a l)
    have hda := hd a (List.mem_cons_self a l)
    have ih2 := ih (fun x hx => hpr x (List.mem_cons_of_mem a hx))
      (fun x hx => hd x (List.mem_cons_of_mem a hx))
    cases hp : p a <;> cases hq : q a
    · rw [hp, hq] at ha
      simp only [Bool.or_self] at ha
      simp [List.filter_cons, ha, hp, hq, ih2]
    · rw [hp, hq] at ha
      simp only [Bool.false_or] at ha
      simp [List.filter_cons, ha, hp, hq, ih2]
      omega
    · rw [hp, hq] at ha
      simp only [Bool.or_false] at ha
      simp [List.filter_cons, ha, hp, hq, ih2]
      omega
    · exact absurd ⟨hp, hq⟩ hda

/-- Splitting an inclusive iteration range [a, c] at m: the histogram
over [a, c] is the keywise sum of the histograms over [a, m] and
[m+1, c]. -/
theorem cb_get_histogram_split (h : List Snap) (a m c : ℕ) (v : ℤ)
    (h1 : a ≤ m) (h2 : m ≤ c) :
    get_histogram h a c v =
      get_histogram h a m v + get_histogram h (m + 1) c v := by
  unfold get_histogram selectIters
  rw [List.map_map, List.map_map, List.map_map]
  refine cb_sum_map_filter_split (fun p => snapCount p.2 v)
    (fun x : ℕ × Snap => decide (a ≤ x.1) && decide (x.1 ≤ m))
    (fun x : ℕ × Snap => decide (m + 1 ≤ x.1) && decide (x.1 ≤ c)) _ _ ?_ ?_
  · intro x _
    simp only []
    rw [← Bool.decide_and, ← Bool.decide_and, ← Bool.decide_and, ← Bool.decide_or]
    rw [decide_eq_decide]
    omega
  · intro x _
    rintro ⟨hp, hq⟩
    simp only [Bool.and_eq_true, decide_eq_true_eq] at hp hq
    omega

/-- A partition of the inclusive range [a, b] only exists when
a ≤ b. -/
theorem cb_partition_le :
    ∀ (rs : List (ℕ × ℕ)) (a b : ℕ), IsPartition a b rs → a ≤ b := by
  intro rs
  induction rs with
  | nil =>
    intro a b hp
    exact absurd rfl hp.1
  | cons r rest ih =>
    intro a b hp
    obtain ⟨-, hhead, hlast, hall, hchain⟩ := hp
    have hr := hall r (List.mem_cons_self r rest)
    cases rest with
    | nil =>
      have hb : r.2 = b := hlast
      have ha : r.1 = a := hhead
      omega
    | cons s rest2 =>
      have hcc := List.chain'_cons.mp hchain
      rw [List.getLastD_cons] at hlast
      have hpart : IsPartition s.1 b (s :: rest2) := by
        refine ⟨List.cons_ne_nil s rest2, rfl, ?_, ?_, hcc.2⟩
        · rw [List.getLastD_cons]
          rw [List.getLastD_cons] at hlast
          exact hlast
        · exact fun x hx => hall x (List.mem_cons_of_mem r hx)
      have h2 := ih s.1 b hpart
      have ha : r.1 = a := hhead
      have hs1 := hcc.1
      omega

/-- Claim C10: histogram additivity.  For every history and every
partition of an inclusive iteration range into disjoint contiguous
sub-ranges, get_histogram over the full range equals, for every volume
key (missing keys counting as zero), the sum of get_histogram over the
sub-ranges. -/
theorem get_histogram_additive (hist : List Snap) (v : ℤ) :
    ∀ (rs : List (ℕ × ℕ)) (a b : ℕ), IsPartition a b rs →
      get_histogram hist a b v =
        (rs.map fun r => get_histogram hist r.1 r.2 v).sum := by
  intro rs
  induction rs with
  | nil =>
    intro a b hp
    exact absurd rfl hp.1
  | cons r rest ih =>
    intro a b hp
    obtain ⟨-, hhead, hlast, hall, hchain⟩ := hp
    have hr := hall r (List.mem_cons_self r rest)
    have ha : r.1 = a := hhead
    cases rest with
    | nil =>
      have hb : r.2 = b := hlast
      simp [← ha, ← hb]
    | cons s rest2 =>
      have hcc := List.chain'_cons.mp hchain
      rw [List.getLastD_cons] at hlast
      have hpart : IsPartition s.1 b (s :: rest2) := by
        refine ⟨List.cons_ne_nil s rest2, rfl, ?_, ?_, hcc.2⟩
        · rw [List.getLastD_cons]
          rw [List.getLastD_cons] at hlast
          exact hlast
        · exact fun x hx => hall x (List.mem_cons_of_mem r hx)
      have hle := cb_partition_le (s :: rest2) s.1 b hpart
      have hs1 := hcc.1
      have hsplit := cb_get_histogram_split hist a r.2 b v (ha ▸ hr) (by omega)
      rw [hsplit, List.map_cons, List.sum_cons, ← ha]
      have ihr := ih s.1 b hpart
      rw [← hs1, ihr]

/-- Claim C10 witness: the partition of iterations [0, 2] into [0, 0]
and [1, 2] on a three-snapshot history, at volume key 1. -/
theorem get_histogram_additive_witness :
    IsPartition 0 2 [(0, 0), (1, 2)] ∧
    get_histogram [[(1, 2)], [(1, 1)], [(2, 5)]] 0 2 1 =
      (([(0, 0), (1, 2)] : List (ℕ × ℕ)).map fun r =>
        get_histogram [[(1, 2)], [(1, 1)], [(2, 5)]] r.1 r.2 1).sum := by
  have hp : IsPartition 0 2 [(0, 0), (1, 2)] := by
    refine ⟨by simp, rfl, rfl, ?_, ?_⟩
    · intro r hr
      simp only [List.mem_cons, List.not_mem_nil, or_false] at hr
      rcases hr with rfl | rfl <;> simp
    · exact List.chain'_cons.mpr ⟨rfl, List.chain'_singleton _⟩
  exact ⟨hp, get_histogram_additive _ 1 _ 0 2 hp⟩

/-- Filtering away the zero entries of a count table does not change
the total count. -/
theorem cb_sum_filter_pos (l : List (ℕ × ℕ)) :
    ((l.filter fun p => decide (0 < p.2)).map fun p => p.2).sum =
      (l.map fun p => p.2).sum := by
  induction l with
  | nil => simp
  | cons a l ih =>
    by_cases h : 0 < a.2
    · simp [List.filter_cons, h, ih]
    · have h0 : a.2 = 0 := by omega
      simp [List.filter_cons, h, ih, h0]

/-- For a sorted edge list with head x, x bounds the last edge from
below. -/
theorem cb_sorted_head_le_getLastD :
    ∀ (l : List ℝ) (x d : ℝ), List.Sorted (· ≤ ·) (x :: l) →
      x ≤ (x :: l).getLastD d := by
  intro l
  induction l with
  | nil => intro x d _; exact le_refl x
  | cons y l2 ih =>
    intro x d hs
    have h1 := (List.sorted_cons.mp hs).1 y (List.mem_cons_self y l2)
    have h2 := (List.sorted_cons.mp hs).2
    have h3 := ih y x h2
    rw [List.getLastD_cons]
    calc x ≤ y := h1
      _ ≤ (y :: l2).getLastD x := h3

/-- Summing the np.histogram count vector over all bins counts exactly
the values lying inside the binning range [first edge, last edge];
values outside it are counted by no bin. -/
theorem cb_histList_sum (ds : List ℝ) :
    ∀ (bins : List ℝ), List.Sorted (· ≤ ·) bins → 2 ≤ bins.length →
      (histList ds bins).sum = ds.countP fun d =>
        decide (bins.headD 0 ≤ d) && decide (d ≤ bins.getLastD 0)
  | [] => by
    intro _ h2
    simp at h2
  | [a] => by
    intro _ h2
    simp at h2
  | [a, b] => by
    intro _ _
    simp [histList, List.getLastD_cons]
  | a :: b :: c :: rest => by
    intro hs h2
    have hsorted2 : List.Sorted (· ≤ ·) (b :: c :: rest) :=
      (List.sorted_cons.mp hs).2
    have hab : a ≤ b :=
      (List.sorted_cons.mp hs).1 b (List.mem_cons_self b (c :: rest))
    have hbL : b ≤ (b :: c :: rest).getLastD 0 :=
      cb_sorted_head_le_getLastD (c :: rest) b 0 hsorted2
    have ihs := cb_histList_sum ds (b :: c :: rest) hsorted2 (by simp)
    have hdisj : ∀ d ∈ ds,
        ¬((decide (a ≤ d) && decide (d < b)) = true ∧
          (decide (b ≤ d) &&
            decide (d ≤ (b :: c :: rest).getLastD 0)) = true) := by
      intro d _
      rintro ⟨hp, hq⟩
      simp only [Bool.and_eq_true, decide_eq_true_eq] at hp hq
      exact absurd hq.1 (not_le.mpr hp.2)
    have hjoin := (cb_countP_or_disjoint
      (fun d => decide (a ≤ d) && decide (d < b))
      (fun d => decide (b ≤ d) && decide (d ≤ (b :: c :: rest).getLastD 0))
      ds hdisj).symm
    rw [histList, List.sum_cons, ihs]
    have hheads : (b :: c :: rest).headD 0 = b := rfl
    rw [hheads, hjoin]
    refine List.countP_congr ?_
    intro d _
    have hgl : ((a :: b :: c :: rest).getLastD 0) = (b :: c :: rest).getLastD 0 := by
      simp only [List.getLastD_cons]
    constructor
    · intro hor
      rcases Bool.or_eq_true_iff.mp hor with hfst | hsnd
      · simp only [Bool.and_eq_true, decide_eq_true_eq] at hfst ⊢
        rw [hgl]
        exact ⟨hfst.1, le_trans (le_of_lt hfst.2) hbL⟩
      · simp only [Bool.and_eq_true, decide_eq_true_eq] at hsnd ⊢
        rw [hgl]
        exact ⟨le_trans hab hsnd.1, hsnd.2⟩
    · intro hin
      simp only [Bool.and_eq_true, decide_eq_true_eq] at hin
      rw [hgl] at hin
      rcases lt_or_le d b with h3 | h3
      · refine Bool.or_eq_true_iff.mpr (Or.inl ?_)
        simp only [Bool.and_eq_true, decide_eq_true_eq]
        exact ⟨hin.1, h3⟩
      · refine Bool.or_eq_true_iff.mpr (Or.inr ?_)
        simp only [Bool.and_eq_true, decide_eq_true_eq]
        exact ⟨h3, hin.2⟩

/-- Claim C6 (counterexample): the diameter-histogram snapshot
formatter does not conserve counts for every population: a single
bubble of diameter 5 histogrammed over the bin edges [0, 1] produces an
empty snapshot (total count 0) although the population has size 1. -/
theorem snapshot_count_out_of_range :
    formatDiametersHist [0, 1] [{ diameter := some 5 }] = Except.ok [] ∧
    ([{ diameter := some 5 }] : List Bubble).length = 1 := by
  constructor
  · unfold formatDiametersHist
    have hc : (([{ diameter := some 5 }] : List Bubble).all
        fun b => b.diameter.isSome) = true := rfl
    rw [if_pos hc]
    have hp : (decide ((0 : ℝ) ≤ (5 : ℝ)) && decide ((5 : ℝ) ≤ (1 : ℝ))) = false := by
      have h5 : decide ((5 : ℝ) ≤ (1 : ℝ)) = false :=
        decide_eq_false (by norm_num)
      rw [h5, Bool.and_false]
    have hl : histList [(5 : ℝ)] [0, 1] = [0] := by
      rw [histList, List.countP_cons, List.countP_nil, hp]
      rfl
    show Except.ok ((histList [(5 : ℝ)] [0, 1]).enum.filter
      fun p => decide (0 < p.2)) = Except.ok []
    rw [hl]
    rfl
  · rfl

/-- Claim C6 (amended): snapshot count conservation holds exactly for
the integer-volume formatter: the sum of its counts always equals the
population size.  For the diameter-histogram formatter the sum of
counts equals the number of bubbles whose diameter lies within the
binning range [first edge, last edge] (so it equals the population
size exactly when every diameter is in range); an empty population
yields a valid empty snapshot in both. -/
theorem snapshot_count_conservation :
    (∀ bs : List Bubble, (∀ b ∈ bs, b.volume.isSome) →
      (formatVolumesInt bs).map (fun r => (r.map fun p => p.2).sum) =
        Except.ok bs.length) ∧
    (∀ (bins : List ℝ) (bs : List Bubble), (∀ b ∈ bs, b.diameter.isSome) →
      List.Sorted (· ≤ ·) bins → 2 ≤ bins.length →
      (formatDiametersHist bins bs).map (fun r => (r.map fun p => p.2).sum) =
        Except.ok ((bs.map fun b => b.diameter.getD 0).countP fun d =>
          decide (bins.headD 0 ≤ d) && decide (d ≤ bins.getLastD 0))) := by
  constructor
  · intro bs hv
    unfold formatVolumesInt
    rw [if_pos (List.all_eq_true.mpr fun b hb => hv b hb)]
    rw [Except.map]
    congr 1
    rw [List.map_map]
    have hcomp : ((fun p => p.2) ∘ fun v =>
        ((v, (bs.map fun b => b.volume.getD 0).count v) : ℤ × ℕ)) =
        fun v => (bs.map fun b => b.volume.getD 0).count v := rfl
    rw [hcomp]
    have hperm : List.Perm
        ((bs.map fun b => b.volume.getD 0).dedup.insertionSort (· ≤ ·))
        (bs.map fun b => b.volume.getD 0).dedup :=
      List.perm_insertionSort _ _
    rw [List.Perm.sum_eq (hperm.map _)]
    rw [← List.sum_toFinset _ (List.nodup_dedup _)]
    rw [show (bs.map fun b => b.volume.getD 0).dedup.toFinset =
      (bs.map fun b => b.volume.getD 0).toFinset by ext a; simp]
    rw [List.sum_toFinset_count_eq_length]
    rw [List.length_map]
  · intro bins bs hd hs h2
    unfold formatDiametersHist
    rw [if_pos (List.all_eq_true.mpr fun b hb => hd b hb)]
    rw [Except.map]
    congr 1
    have he : ((histList (bs.map fun b => b.diameter.getD 0) bins).enum.filter
        fun p => 0 < p.2) =
        ((histList (bs.map fun b => b.diameter.getD 0) bins).enum.filter
          fun p => decide (0 < p.2)) := rfl
    rw [he, cb_sum_filter_pos]
    have hmap : ((histList (bs.map fun b => b.diameter.getD 0) bins).enum.map
        fun p => p.2) = histList (bs.map fun b => b.diameter.getD 0) bins :=
      List.enum_map_snd _
    rw [hmap]
    exact cb_histList_sum _ bins hs h2

/-- Claim C6 witness: the volume formatter on two volume-2 bubbles
totals 2; the diameter formatter on one in-range bubble over edges
[0, 1] totals the in-range count. -/
theorem snapshot_count_conservation_witness :
    (formatVolumesInt [{ volume := some 2 }, { volume := some 2 }]).map
        (fun r => (r.map fun p => p.2).sum) = Except.ok 2 ∧
    (formatDiametersHist [0, 1] [{ diameter := some (1 / 2) }]).map
        (fun r => (r.map fun p => p.2).sum) =
      Except.ok ((([{ diameter := some (1 / 2) }] : List Bubble).map
          fun b => b.diameter.getD 0).countP fun d =>
        decide (([0, 1] : List ℝ).headD 0 ≤ d) &&
          decide (d ≤ ([0, 1] : List ℝ).getLastD 0)) := by
  constructor
  · exact snapshot_count_conservation.1
      [{ volume := some 2 }, { volume := some 2 }]
      (by
        intro b hb
        simp only [List.mem_cons, List.not_mem_nil, or_false] at hb
        rcases hb with rfl | rfl <;> rfl)
  · refine snapshot_count_conservation.2 [0, 1] [{ diameter := some (1 / 2) }]
      (by
        intro b hb
        simp only [List.mem_singleton] at hb
        rw [hb]
        rfl) ?_ (by simp)
    simp [List.sorted_cons]

/-! ### Infrastructure for the coalescence-engine theorems -/

/-- Complement counting. -/
theorem cb_countP_not (p : ℕ → Bool) (l : List ℕ) :
    l.countP (fun x => !(p x)) = l.length - l.countP p := by
  induction l with
  | nil => simp
  | cons a l ih =>
    have hle : l.countP p ≤ l.length := List.countP_le_length p
    cases hp : p a <;> simp [List.countP_cons, hp, ih] <;> omega

/-- Membership of an unordered pair in the condensed enumeration. -/
theorem cb_mem_triuPairs (n : ℕ) (p : ℕ × ℕ) :
    p ∈ triuPairs n ↔ p.1 < p.2 ∧ p.2 < n := by
  unfold triuPairs
  constructor
  · intro hp
    rcases List.mem_flatMap.mp hp with ⟨i, hi, hmem⟩
    rcases List.mem_map.mp hmem with ⟨j, hj, rfl⟩
    rcases List.mem_filter.mp hj with ⟨hjr, hij⟩
    exact ⟨by simpa using hij, List.mem_range.mp hjr⟩
  · rintro ⟨h1, h2⟩
    refine List.mem_flatMap.mpr ⟨p.1, List.mem_range.mpr (lt_trans h1 h2), ?_⟩
    refine List.mem_map.mpr ⟨p.2, List.mem_filter.mpr ⟨List.mem_range.mpr h2, by simpa using h1⟩, rfl⟩

/-- The two indices of condensed pair k are an increasing pair below
the population size. -/
theorem cb_pair_lt (n k : ℕ) (hk : k < (triuPairs n).length) :
    iOf n k < jOf n k ∧ jOf n k < n := by
  have hmem : (triuPairs n).getD k (0, 0) ∈ triuPairs n := by
    rw [List.getD_eq_getElem _ _ hk]
    exact List.getElem_mem hk
  exact (cb_mem_triuPairs n _).mp hmem

/-- Decomposing a filtered initial segment at a selected element j:
everything below j, then j itself, then a tail of elements above j. -/
theorem cb_filter_range_decomp (p : ℕ → Bool) :
    ∀ (m j : ℕ), p j = true →
      ∃ B : List ℕ, (List.range (j + 1 + m)).filter p =
        ((List.range j).filter p) ++ j :: B ∧ ∀ x ∈ B, j < x := by
  intro m
  induction m with
  | zero =>
    intro j hp
    refine ⟨[], ?_, by simp⟩
    rw [show j + 1 + 0 = j + 1 by omega, List.range_succ, List.filter_append]
    simp [hp]
  | succ m ih =>
    intro j hp
    obtain ⟨B, hB, hBgt⟩ := ih j hp
    refine ⟨B ++ ((([j + 1 + m] : List ℕ)).filter p), ?_, ?_⟩
    · rw [show j + 1 + (m + 1) = (j + 1 + m) + 1 by omega, List.range_succ,
        List.filter_append, hB]
      simp [List.append_assoc]
    · intro x hx
      rcases List.mem_append.mp hx with hx | hx
      · exact hBgt x hx
      · have := (List.mem_filter.mp hx).1
        have hx1 : x = j + 1 + m := List.mem_singleton.mp this
        omega

/-- As above, for any bound n above j. -/
theorem cb_filter_range_decomp_lt (p : ℕ → Bool) (n j : ℕ) (hj : j < n)
    (hp : p j = true) :
    ∃ B : List ℕ, (List.range n).filter p =
      ((List.range j).filter p) ++ j :: B ∧ ∀ x ∈ B, j < x := by
  obtain ⟨m, rfl⟩ : ∃ m, n = j + 1 + m := ⟨n - j - 1, by omega⟩
  exact cb_filter_range_decomp p m j hp

/-- A fixed natural occurs in an initial segment of the naturals once
or not at all. -/
theorem cb_countP_eq_range (m j : ℕ) :
    (List.range j).countP (fun x => decide (x = m)) = if m < j then 1 else 0 := by
  induction j with
  | zero => simp
  | succ j ih =>
    rw [List.range_succ, List.countP_append, ih]
    by_cases h : m < j <;> by_cases h2 : m < j + 1 <;>
      simp [List.countP_cons, h, h2] <;> omega

/-- Counting the members of a duplicate-free list below j by scanning
the initial segment of naturals. -/
theorem cb_countP_mem_eq_filter_length :
    ∀ (M : List ℕ), M.Nodup → ∀ j : ℕ,
      (List.range j).countP (fun x => decide (x ∈ M)) =
        (M.filter fun m => decide (m < j)).length := by
  intro M
  induction M with
  | nil => intro _ j; simp
  | cons m M ih =>
    intro hM j
    have hnd := List.nodup_cons.mp hM
    have ih2 := ih hnd.2 j
    have hsplit : (List.range j).countP (fun x => decide (x ∈ m :: M)) =
        (List.range j).countP (fun x => decide (x = m) || decide (x ∈ M)) := by
      apply List.countP_congr
      intro x _
      simp [List.mem_cons]
    have hdisj : ∀ x ∈ List.range j,
        ¬((decide (x = m)) = true ∧ (decide (x ∈ M)) = true) := by
      intro x _
      rintro ⟨h1, h2⟩
      simp only [decide_eq_true_eq] at h1 h2
      exact hnd.1 (h1 ▸ h2)
    rw [hsplit, cb_countP_or_disjoint _ _ _ hdisj, cb_countP_eq_range, ih2,
      List.filter_cons]
    by_cases hmj : m < j
    · simp [hmj]
      omega
    · simp [hmj]

/-- Reading back a list through positional lookup over its index
range. -/
theorem cb_map_getD_range :
    ∀ (l : List Bubble), (List.range l.length).map (fun x => l.getD x {}) = l := by
  intro l
  induction l with
  | nil => rfl
  | cons a l ih =>
    rw [List.length_cons, List.range_succ_eq_map, List.map_cons, List.map_map]
    have hcong : (List.range l.length).map ((fun x => (a :: l).getD x {}) ∘ Nat.succ) =
        (List.range l.length).map (fun x => l.getD x {}) := by
      apply List.map_congr_left
      intro x _
      rfl
    rw [hcong, ih]
    rfl

/-- With nothing consumed yet, the survivors are the whole original
population. -/
theorem cb_survivors_nil (orig : List Bubble) : survivors orig [] = orig := by
  unfold survivors
  have hfil : ((List.range orig.length).filter
      fun x => !(decide (x ∈ ([] : List ℕ)))) = List.range orig.length := by
    apply List.filter_eq_self.mpr
    intro x _
    simp
  rw [hfil, cb_map_getD_range]

/-- The survivors depend only on the membership of the consumed-index
list. -/
theorem cb_survivors_congr (orig : List Bubble) (M1 M2 : List ℕ)
    (h : ∀ x, x ∈ M1 ↔ x ∈ M2) : survivors orig M1 = survivors orig M2 := by
  unfold survivors
  congr 1
  apply List.filter_congr
  intro x _
  rw [decide_eq_decide.mpr (h x)]

/-- Positional read at the join point of an append. -/
theorem cb_getD_append_cons :
    ∀ (A : List Bubble) (x : Bubble) (B : List Bubble) (d : Bubble),
      (A ++ x :: B).getD A.length d = x := by
  intro A
  induction A with
  | nil => intro x B d; rfl
  | cons a A ih => intro x B d; simpa using ih x B d

/-- Positional removal at the join point of an append. -/
theorem cb_eraseIdx_append_cons :
    ∀ (A : List Bubble) (x : Bubble) (B : List Bubble),
      (A ++ x :: B).eraseIdx A.length = A ++ B := by
  intro A
  induction A with
  | nil => intro x B; rfl
  | cons a A ih =>
    intro x B
    rw [List.cons_append, List.length_cons, List.eraseIdx_cons_succ, ih]
    rfl

/-- Number of survivors: the original size minus the number of consumed
indices. -/
theorem cb_survivors_length (orig : List Bubble) (M : List ℕ) (hM : M.Nodup)
    (hMlt : ∀ m ∈ M, m < orig.length) :
    (survivors orig M).length = orig.length - M.length := by
  unfold survivors
  rw [List.length_map, ← List.countP_eq_length_filter, cb_countP_not,
    List.length_range, cb_countP_mem_eq_filter_length M hM]
  have hfil : M.filter (fun m => decide (m < orig.length)) = M := by
    apply List.filter_eq_self.mpr
    intro m hm
    simpa using hMlt m hm
  rw [hfil]

/-- Decomposing the survivors at an unconsumed original index j: the
survivors split into the survivors below j, the bubble at j — sitting
at position j minus the number of consumed indices below j — and the
survivors above j; consuming j removes exactly that middle element. -/
theorem cb_survivors_pop (orig : List Bubble) (M : List ℕ) (j : ℕ)
    (hM : M.Nodup) (hjM : j ∉ M) (hj : j < orig.length) :
    ∃ A B : List Bubble,
      survivors orig M = A ++ orig.getD j {} :: B ∧
      A.length = j - (M.filter fun m => decide (m < j)).length ∧
      (M.filter fun m => decide (m < j)).length ≤ j ∧
      survivors orig (M ++ [j]) = A ++ B := by
  have hpj : (fun x => !(decide (x ∈ M))) j = true := by simp [hjM]
  obtain ⟨B0, hB0, hB0gt⟩ :=
    cb_filter_range_decomp_lt (fun x => !(decide (x ∈ M))) orig.length j hj hpj
  have hAlen : (((List.range j).filter fun x => !(decide (x ∈ M))).length) =
      j - (M.filter fun m => decide (m < j)).length := by
    rw [← List.countP_eq_length_filter, cb_countP_not, List.length_range,
      cb_countP_mem_eq_filter_length M hM]
  have hble : (M.filter fun m => decide (m < j)).length ≤ j := by
    rw [← cb_countP_mem_eq_filter_length M hM]
    calc (List.range j).countP (fun x => decide (x ∈ M)) ≤ (List.range j).length :=
          List.countP_le_length _
      _ = j := List.length_range j
  refine ⟨((List.range j).filter fun x => !(decide (x ∈ M))).map (fun x => orig.getD x {}),
    B0.map (fun x => orig.getD x {}), ?_, by rw [List.length_map, hAlen], hble, ?_⟩
  · unfold survivors
    rw [hB0, List.map_append, List.map_cons]
  · unfold survivors
    have hcong : ((List.range orig.length).filter fun x => !(decide (x ∈ M ++ [j]))) =
        ((List.range orig.length).filter fun x =>
          (!(decide (x ∈ M))) && (!(decide (x = j)))) := by
      apply List.filter_congr
      intro x _
      have : (x ∈ M ++ [j]) ↔ (x ∈ M ∨ x = j) := by
        simp [List.mem_append]
      rw [decide_eq_decide.mpr this, Bool.decide_or, Bool.not_or]
    have hff : ((List.range orig.length).filter fun x =>
        (!(decide (x ∈ M))) && (!(decide (x = j)))) =
        (((List.range orig.length).filter fun x => !(decide (x ∈ M))).filter
          fun x => !(decide (x = j))) := by
      rw [List.filter_filter]
      apply List.filter_congr
      intro x _
      rw [Bool.and_comm]
    rw [hcong, hff, hB0, List.filter_append, List.filter_cons]
    have hjj : (!(decide (j = j))) = false := by simp
    rw [hjj]
    have hA : (((List.range j).filter fun x => !(decide (x ∈ M))).filter
        fun x => !(decide (x = j))) =
        ((List.range j).filter fun x => !(decide (x ∈ M))) := by
      apply List.filter_eq_self.mpr
      intro x hx
      have hxr := (List.mem_filter.mp hx).1
      have hxj : x < j := List.mem_range.mp hxr
      simp
      omega
    have hB : B0.filter (fun x => !(decide (x = j))) = B0 := by
      apply List.filter_eq_self.mpr
      intro x hx
      have := hB0gt x hx
      simp
      omega
    rw [hA, hB, List.map_append]
    simp

/-- The consumed-below-j count grows by at most the size of the open
interval (i, j) when passing from i to j, for i itself unconsumed. -/
theorem cb_shift_bound (M : List ℕ) (hM : M.Nodup) (i j : ℕ) (hij : i < j)
    (hiM : i ∉ M) :
    (M.filter fun m => decide (m < j)).length ≤
      (M.filter fun m => decide (m < i)).length + (j - i - 1) := by
  rw [← cb_countP_mem_eq_filter_length M hM, ← cb_countP_mem_eq_filter_length M hM]
  obtain ⟨m, rfl⟩ : ∃ m, j = i + (m + 1) := ⟨j - i - 1, by omega⟩
  rw [List.range_add, List.countP_append, List.range_succ_eq_map, List.map_cons,
    List.countP_cons]
  have hi0 : (decide (i + 0 ∈ M)) = false := by
    simp [hiM]
  rw [hi0]
  have hle : List.countP (fun x => decide (x ∈ M))
      ((List.map Nat.succ (List.range m)).map (fun x => i + x)) ≤ m := by
    calc List.countP (fun x => decide (x ∈ M))
          ((List.map Nat.succ (List.range m)).map (fun x => i + x)) ≤
          ((List.map Nat.succ (List.range m)).map (fun x => i + x)).length :=
            List.countP_le_length _
      _ = m := by simp
  simp only [Bool.false_eq_true, if_false]
  omega

/-- Each successful merge contributes its two original indices. -/
theorem cb_flatMap_pair_length :
    ∀ (evs : List MergeEvent),
      (evs.flatMap fun e => [e.i, e.j]).length = 2 * evs.length := by
  intro evs
  induction evs with
  | nil => rfl
  | cons e evs ih =>
    rw [List.flatMap_cons, List.length_append, ih, List.length_cons]
    simp
    omega

/-- Enumerating a list extended by one element. -/
theorem cb_enumFrom_concat {α : Type} :
    ∀ (l : List α) (x : α) (n : ℕ),
      (l ++ [x]).enumFrom n = l.enumFrom n ++ [(n + l.length, x)] := by
  intro l
  induction l with
  | nil => intro x n; simp
  | cons a l ih =>
    intro x n
    rw [List.cons_append, List.enumFrom_cons, ih, List.enumFrom_cons]
    simp
    omega

/-- Enumerating a list extended by one element, from zero. -/
theorem cb_enum_concat {α : Type} (l : List α) (x : α) :
    (l ++ [x]).enum = l.enum ++ [(l.length, x)] := by
  unfold List.enum
  rw [cb_enumFrom_concat]
  simp

/-- At most x members of a duplicate-free list lie below x. -/
theorem cb_filter_lt_le (M : List ℕ) (hM : M.Nodup) (x : ℕ) :
    (M.filter fun m => decide (m < x)).length ≤ x := by
  rw [← cb_countP_mem_eq_filter_length M hM]
  calc (List.range x).countP (fun y => decide (y ∈ M)) ≤ (List.range x).length :=
        List.countP_le_length _
    _ = x := List.length_range x

/-- The corrected position of the larger index of a fresh pair stays
strictly above the corrected position of the smaller one. -/
theorem cb_pairShift_lt (M : List ℕ) (hM : M.Nodup) (i j : ℕ) (hij : i < j)
    (hiM : i ∉ M) :
    pairShift M i < pairShift M j := by
  have h1 := cb_shift_bound M hM i j hij hiM
  have h2 := cb_filter_lt_le M hM i
  unfold pairShift
  omega

/-- Effect of one merge attempt on the loop invariant: the candidate
trace is untouched, the bookkeeping invariant is preserved even when
the pair merge aborts, and on success the full population decomposition
is preserved; the two bubbles popped are the originals at the pair's
indices. -/
theorem cb_mergeStep_spec (orig : List Bubble) (kw : Bubble) (k : ℕ)
    (st : LoopState) (hinv : Inv orig st)
    (hij : iOf orig.length k < jOf orig.length k)
    (hjN : jOf orig.length k < orig.length)
    (hiM : iOf orig.length k ∉ st.merged)
    (hjM : jOf orig.length k ∉ st.merged) :
    (mergeStep orig kw k st).popped = st.popped ∧
    InvCore orig (mergeStep orig kw k st) ∧
    ((mergeStep orig kw k st).err = none → Inv orig (mergeStep orig kw k st)) := by
  obtain ⟨⟨hflat, hnod, hbound, hev, hpos⟩, hbub⟩ := hinv
  have hiN : iOf orig.length k < orig.length := lt_trans hij hjN
  -- decompose the survivors at j
  obtain ⟨A, B, hAB, hAlen, hjle, hAB2⟩ :=
    cb_survivors_pop orig st.merged (jOf orig.length k) hnod hjM hjN
  -- decompose the second-stage survivors at i
  have hnodj : (st.merged ++ [jOf orig.length k]).Nodup := by
    rw [List.nodup_append]
    exact ⟨hnod, List.nodup_singleton _, by
      intro x hx hx2
      rw [List.mem_singleton] at hx2
      exact hjM (hx2 ▸ hx)⟩
  have hiMj : iOf orig.length k ∉ st.merged ++ [jOf orig.length k] := by
    rw [List.mem_append, List.mem_singleton]
    rintro (h | h)
    · exact hiM h
    · omega
  obtain ⟨A2, B2, hAB2i, hA2len, hile, hAB3⟩ :=
    cb_survivors_pop orig (st.merged ++ [jOf orig.length k])
      (iOf orig.length k) hnodj hiMj hiN
  -- the filters below i ignore the appended j
  have hfilij : ((st.merged ++ [jOf orig.length k]).filter
      fun m => decide (m < iOf orig.length k)) =
      (st.merged.filter fun m => decide (m < iOf orig.length k)) := by
    rw [List.filter_append]
    have : ([jOf orig.length k].filter fun m => decide (m < iOf orig.length k)) = [] := by
      rw [List.filter_cons]
      have : (decide (jOf orig.length k < iOf orig.length k)) = false := by
        simp
        omega
      rw [this]
      rfl
    rw [this, List.append_nil]
  -- corrected positions
  have hpilt : pairShift st.merged (iOf orig.length k) <
      pairShift st.merged (jOf orig.length k) :=
    cb_pairShift_lt st.merged hnod _ _ hij hiM
  have hhi : stepHi orig.length st.merged k =
      pairShift st.merged (jOf orig.length k) := by
    unfold stepHi
    omega
  have hlo : stepLo orig.length st.merged k =
      pairShift st.merged (iOf orig.length k) := by
    unfold stepLo
    omega
  have hAlen2 : A.length = pairShift st.merged (jOf orig.length k) := by
    rw [hAlen]
    rfl
  have hA2len2 : A2.length = pairShift st.merged (iOf orig.length k) := by
    rw [hA2len, hfilij]
    rfl
  -- the population, decomposed at the first pop position
  have hbub1 : st.bubbles = A ++ orig.getD (jOf orig.length k) {} ::
      (B ++ st.events.map (fun e => e.out)) := by
    rw [hbub, hAB, List.append_assoc]
    rfl
  have hB1 : stepB1 orig k st = orig.getD (jOf orig.length k) {} := by
    unfold stepB1
    rw [hbub1, hhi, ← hAlen2, cb_getD_append_cons]
  have hrest1 : stepRest1 orig k st =
      (A2 ++ orig.getD (iOf orig.length k) {} :: B2) ++
        st.events.map (fun e => e.out) := by
    unfold stepRest1
    rw [hbub1, hhi, ← hAlen2, cb_eraseIdx_append_cons, ← List.append_assoc, ← hAB2]
    rw [hAB2i]
  have hrest1' : stepRest1 orig k st =
      A2 ++ orig.getD (iOf orig.length k) {} ::
        (B2 ++ st.events.map (fun e => e.out)) := by
    rw [hrest1, List.append_assoc]
    rfl
  have hB2 : stepB2 orig k st = orig.getD (iOf orig.length k) {} := by
    unfold stepB2
    rw [hrest1', hlo, ← hA2len2, cb_getD_append_cons]
  have hrest2 : stepRest2 orig k st =
      survivors orig ((st.merged ++ [jOf orig.length k]) ++ [iOf orig.length k]) ++
        st.events.map (fun e => e.out) := by
    unfold stepRest2
    rw [hrest1', hlo, ← hA2len2, cb_eraseIdx_append_cons, ← List.append_assoc, ← hAB3]
  -- lengths
  have hMev : st.merged.length = 2 * st.events.length := by
    rw [hflat, cb_flatMap_pair_length]
  have hsurvlen : (survivors orig st.merged).length =
      orig.length - st.merged.length :=
    cb_survivors_length orig st.merged hnod hbound
  have hsurvlen1 : (survivors orig st.merged).length = A.length + B.length + 1 := by
    rw [hAB]
    simp
    omega
  have hsurvlen2 : (survivors orig (st.merged ++ [jOf orig.length k])).length =
      A2.length + B2.length + 1 := by
    rw [hAB2i]
    simp
    omega
  have hsurvlen2' : (survivors orig (st.merged ++ [jOf orig.length k])).length =
      orig.length - st.merged.length - 1 := by
    rw [cb_survivors_length orig _ hnodj (by
      intro m hm
      rcases List.mem_append.mp hm with h | h
      · exact hbound m h
      · rw [List.mem_singleton] at h
        omega)]
    simp only [List.length_append, List.length_singleton]
    omega
  -- case on the merge attempt
  rcases hres : merge_bubbles_pair (stepB1 orig k st) (stepB2 orig k st) kw with e | b
  · -- AttributeError/NameError: loop aborts, bookkeeping unchanged
    have hstep : mergeStep orig kw k st =
        { st with
          bubbles := stepRest2 orig k st
          t := st.t + 1
          err := some e } := by
      unfold mergeStep
      rw [hres]
    rw [hstep]
    refine ⟨rfl, ⟨hflat, hnod, hbound, hev, hpos⟩, ?_⟩
    intro h
    exact absurd h (by simp)
  · -- successful merge
    have hstep : mergeStep orig kw k st =
        { bubbles := stepRest2 orig k st ++ [b]
          merged := st.merged ++ [iOf orig.length k, jOf orig.length k]
          t := st.t + 1
          popped := st.popped
          events := st.events ++ [⟨iOf orig.length k, jOf orig.length k,
            stepHi orig.length st.merged k, stepLo orig.length st.merged k,
            stepB1 orig k st, stepB2 orig k st, b⟩]
          err := none } := by
      unfold mergeStep
      rw [hres]
    rw [hstep]
    have hflat2 : st.merged ++ [iOf orig.length k, jOf orig.length k] =
        (st.events ++ [(⟨iOf orig.length k, jOf orig.length k,
          stepHi orig.length st.merged k, stepLo orig.length st.merged k,
          stepB1 orig k st, stepB2 orig k st, b⟩ : MergeEvent)]).flatMap
          (fun e => [e.i, e.j]) := by
      rw [List.flatMap_append, ← hflat]
      rfl
    have hnod2 : (st.merged ++ [iOf orig.length k, jOf orig.length k]).Nodup := by
      rw [List.nodup_append]
      refine ⟨hnod, ?_, ?_⟩
      · refine List.nodup_cons.mpr ⟨?_, List.nodup_singleton _⟩
        rw [List.mem_singleton]
        omega
      · intro x hx hx2
        rcases List.mem_cons.mp hx2 with h | h
        · exact hiM (h ▸ hx)
        · rw [List.mem_singleton] at h
          exact hjM (h ▸ hx)
    have hbound2 : ∀ m ∈ st.merged ++ [iOf orig.length k, jOf orig.length k],
        m < orig.length := by
      intro m hm
      rcases List.mem_append.mp hm with h | h
      · exact hbound m h
      · rcases List.mem_cons.mp h with h | h
        · omega
        · rw [List.mem_singleton] at h
          omega
    refine ⟨rfl, ⟨hflat2, hnod2, hbound2, ?_, ?_⟩, ?_⟩
    · -- every event is about two original bubbles
      intro e he
      rcases List.mem_append.mp he with h | h
      · exact hev e h
      · rw [List.mem_singleton] at h
        subst h
        exact ⟨hij, hjN, hB1.symm ▸ rfl, hB2.symm ▸ rfl⟩
    · -- every pop lands in the surviving-originals prefix
      intro p hp
      rw [cb_enum_concat] at hp
      rcases List.mem_append.mp hp with h | h
      · exact hpos p h
      · rw [List.mem_singleton] at h
        subst h
        have h1 : stepHi orig.length st.merged k < orig.length - st.merged.length := by
          rw [hhi, ← hAlen2]
          omega
        have h2 : stepLo orig.length st.merged k + 1 <
            orig.length - st.merged.length := by
          rw [hlo, ← hA2len2]
          omega
        constructor
        · omega
        constructor
        · rw [← hMev]
          exact h1
        · rw [← hMev]
          exact h2
    · -- On success the population decomposition is preserved
      intro _
      refine ⟨⟨hflat2, hnod2, hbound2, ?_, ?_⟩, ?_⟩
      · intro e he
        rcases List.mem_append.mp he with h | h
        · exact hev e h
        · rw [List.mem_singleton] at h
          subst h
          exact ⟨hij, hjN, hB1.symm ▸ rfl, hB2.symm ▸ rfl⟩
      · intro p hp
        rw [cb_enum_concat] at hp
        rcases List.mem_append.mp hp with h | h
        · exact hpos p h
        · rw [List.mem_singleton] at h
          subst h
          have h1 : stepHi orig.length st.merged k <
              orig.length - st.merged.length := by
            rw [hhi, ← hAlen2]
            omega
          have h2 : stepLo orig.length st.merged k + 1 <
              orig.length - st.merged.length := by
            rw [hlo, ← hA2len2]
            omega
          constructor
          · omega
          constructor
          · rw [← hMev]
            exact h1
          · rw [← hMev]
            exact h2
      · -- bubbles field
        rw [hrest2, List.map_append]
        have hcong : survivors orig
            ((st.merged ++ [jOf orig.length k]) ++ [iOf orig.length k]) =
            survivors orig (st.merged ++ [iOf orig.length k, jOf orig.length k]) := by
          apply cb_survivors_congr
          intro x
          simp [List.mem_append, List.mem_cons]
          tauto
        rw [hcong, List.append_assoc]
        rfl

/-- The loop preserves the invariant: the bookkeeping part holds at
exit unconditionally, and the population decomposition holds whenever
the loop exits without a raised error. -/
theorem cb_mergeLoop_inv (orig : List Bubble) (md : ℝ) (draws : ℕ → Bool)
    (kw : Bubble) :
    ∀ (ks : List ℕ) (st : LoopState), st.err = none → Inv orig st →
      (∀ k ∈ ks, iOf orig.length k < jOf orig.length k ∧
        jOf orig.length k < orig.length) →
      InvCore orig (mergeLoop orig md draws kw ks st) ∧
      ((mergeLoop orig md draws kw ks st).err = none →
        Inv orig (mergeLoop orig md draws kw ks st)) := by
  intro ks
  induction ks with
  | nil =>
    intro st herr hinv _
    rw [mergeLoop]
    exact ⟨hinv.1, fun _ => hinv⟩
  | cons k ks ih =>
    intro st herr hinv hks
    have hk := hks k (List.mem_cons_self k ks)
    have hks2 : ∀ x ∈ ks, iOf orig.length x < jOf orig.length x ∧
        jOf orig.length x < orig.length :=
      fun x hx => hks x (List.mem_cons_of_mem k hx)
    rw [mergeLoop]
    by_cases hgap : gapAt orig k < md
    · rw [if_pos hgap]
      by_cases hmem : iOf orig.length k ∈ st.merged ∨ jOf orig.length k ∈ st.merged
      · rw [if_pos hmem]
        exact ih { st with popped := st.popped ++ [k] } herr hinv hks2
      · rw [if_neg hmem]
        by_cases hdraw : draws st.t = false
        · rw [if_pos hdraw]
          exact ih _ herr hinv hks2
        · rw [if_neg hdraw]
          have hnot := not_or.mp hmem
          have hspec := cb_mergeStep_spec orig kw k
            { st with popped := st.popped ++ [k] } hinv hk.1 hk.2 hnot.1 hnot.2
          split
          · next e heq =>
            refine ⟨hspec.2.1, ?_⟩
            intro hc
            rw [heq] at hc
            exact Option.noConfusion hc
          · next heq =>
            exact ih _ heq (hspec.2.2 heq) hks2
    · rw [if_neg hgap]
      exact ⟨hinv.1, fun _ => hinv⟩

/-- Claim C3: no re-merge within one call.  For every population, every
max_distance and every outcome of the Bernoulli draws, in the
instrumented run of merge_bubbles_closest: the consumed original
indices are pairwise distinct (each input bubble is consumed by at most
one successful merge) and are exactly the pairs of the successful
merges; every successful merge removed exactly the two input bubbles at
its popped original pair (i, j), i < j; and the idx-th merge popped
both its positions inside the surviving-originals prefix of the
mutated list — strictly below length(input) - 2*idx — so a bubble
appended by an earlier merge is never consumed again in the same
call. -/
theorem merge_closest_no_remerge (bs : List Bubble) (max_dist : ℝ)
    (draws : ℕ → Bool) (kw : Bubble) :
    ((mergeClosestRun bs max_dist draws kw).merged).Nodup ∧
    (∀ e ∈ (mergeClosestRun bs max_dist draws kw).events,
      e.i < e.j ∧ e.j < bs.length ∧
        e.b1 = bs.getD e.j {} ∧ e.b2 = bs.getD e.i {}) ∧
    ((mergeClosestRun bs max_dist draws kw).merged =
      (mergeClosestRun bs max_dist draws kw).events.flatMap
        (fun e => [e.i, e.j])) ∧
    (∀ p ∈ (mergeClosestRun bs max_dist draws kw).events.enum,
      2 * p.1 + 2 ≤ bs.length ∧
        p.2.hi < bs.length - 2 * p.1 ∧ p.2.lo + 1 < bs.length - 2 * p.1) := by
  unfold mergeClosestRun
  by_cases hpres : ((bs.all fun b => b.diameter.isSome) &&
      (bs.all fun b => b.xy.isSome)) = true
  · rw [if_pos hpres]
    by_cases hemp : bs.isEmpty = true
    · rw [if_pos hemp]
      exact ⟨List.nodup_nil, by simp [initState], rfl, by simp [initState]⟩
    rw [if_neg hemp]
    have hvalid : ∀ k ∈ (kStack bs).reverse,
        iOf bs.length k < jOf bs.length k ∧ jOf bs.length k < bs.length := by
      intro k hk
      rw [List.mem_reverse] at hk
      unfold kStack at hk
      rw [List.mem_reverse] at hk
      unfold argsortGaps at hk
      have hperm := @List.perm_insertionSort ℕ
        (fun a b => gapAt bs a ≤ gapAt bs b)
        (fun a b => Real.decidableLE _ _) (List.range (gaps bs).length)
      have hk2 : k ∈ List.range (gaps bs).length := hperm.mem_iff.mp hk
      rw [List.mem_range] at hk2
      have hlen : (gaps bs).length = (triuPairs bs.length).length := by
        unfold gaps
        rw [List.length_map]
      exact cb_pair_lt bs.length k (by rw [← hlen]; exact hk2)
    have hinv0 : Inv bs (initState bs) := by
      refine ⟨⟨rfl, List.nodup_nil, by simp [initState], by simp [initState],
        by simp [initState]⟩, ?_⟩
      show bs = survivors bs [] ++ []
      rw [cb_survivors_nil, List.append_nil]
    have h := cb_mergeLoop_inv bs max_dist draws kw (kStack bs).reverse
      (initState bs) rfl hinv0 hvalid
    obtain ⟨⟨hflat, hnod, hbound, hev, hpos⟩, -⟩ := h
    exact ⟨hnod, fun e he => hev e he, hflat, hpos⟩
  · rw [if_neg hpres]
    exact ⟨List.nodup_nil, by simp [initState], rfl, by simp [initState]⟩

/-- The candidate trace of an abort-free loop run: the pairs popped are
exactly the longest prefix of the (ascending) worklist whose gaps lie
below the threshold, in worklist order. -/
theorem cb_mergeLoop_popped (orig : List Bubble) (md : ℝ) (draws : ℕ → Bool)
    (kw : Bubble) :
    ∀ (ks : List ℕ) (st : LoopState),
      (mergeLoop orig md draws kw ks st).err = none →
      (mergeLoop orig md draws kw ks st).popped =
        st.popped ++ ks.takeWhile (fun k => decide (gapAt orig k < md)) := by
  intro ks
  induction ks with
  | nil =>
    intro st _
    rw [mergeLoop]
    simp
  | cons k ks ih =>
    intro st hfin
    rw [mergeLoop] at hfin ⊢
    by_cases hgap : gapAt orig k < md
    · rw [if_pos hgap] at hfin ⊢
      rw [List.takeWhile_cons, if_pos (decide_eq_true hgap)]
      by_cases hmem : iOf orig.length k ∈ st.merged ∨ jOf orig.length k ∈ st.merged
      · rw [if_pos hmem] at hfin ⊢
        rw [ih _ hfin]
        simp
      · rw [if_neg hmem] at hfin ⊢
        by_cases hdraw : draws st.t = false
        · rw [if_pos hdraw] at hfin ⊢
          rw [ih _ hfin]
          simp
        · rw [if_neg hdraw] at hfin ⊢
          rcases hse : (mergeStep orig kw k
              { st with popped := st.popped ++ [k] }).err with _ | e
          · rw [hse] at hfin
            simp only [] at hfin ⊢
            rw [ih _ hfin]
            have hpop : (mergeStep orig kw k
                { st with popped := st.popped ++ [k] }).popped =
                st.popped ++ [k] := by
              unfold mergeStep
              rcases hmp : merge_bubbles_pair (stepB1 orig k
                  { st with popped := st.popped ++ [k] })
                  (stepB2 orig k { st with popped := st.popped ++ [k] }) kw with
                e2 | b2
              · rfl
              · rfl
            rw [hpop]
            simp
          · rw [hse] at hfin
            simp only [] at hfin
            rw [hse] at hfin
            exact absurd hfin (by simp)
    · rw [if_neg hgap] at hfin ⊢
      rw [List.takeWhile_cons, if_neg (by simp [hgap])]
      simp

/-- The gap of pair k is the euclidean distance of the two locations
minus the mean of the two diameters — surface-to-surface separation. -/
theorem cb_gap_formula (bs : List Bubble) (k : ℕ)
    (hk : k < (triuPairs bs.length).length) :
    gapAt bs k =
      euclid (xyAt bs (iOf bs.length k)) (xyAt bs (jOf bs.length k)) -
        (dAt bs (iOf bs.length k) + dAt bs (jOf bs.length k)) / 2 := by
  unfold gapAt gaps iOf jOf
  rw [List.getD_eq_getElem _ _ (by rw [List.length_map]; exact hk),
    List.getElem_map, List.getD_eq_getElem _ _ hk]

/-- The ascending argsort is sorted by non-decreasing gap. -/
theorem cb_argsort_sorted (bs : List Bubble) :
    (argsortGaps bs).Pairwise (fun a b => gapAt bs a ≤ gapAt bs b) := by
  unfold argsortGaps
  exact @List.sorted_insertionSort ℕ (fun a b => gapAt bs a ≤ gapAt bs b)
    (fun a b => Real.decidableLE _ _)
    ⟨fun a b => le_total _ _⟩ ⟨fun a b c h1 h2 => le_trans h1 h2⟩
    (List.range (gaps bs).length)

/-- The ascending argsort is a permutation of all pair indices. -/
theorem cb_argsort_perm (bs : List Bubble) :
    (argsortGaps bs).Perm (List.range (gaps bs).length) := by
  unfold argsortGaps
  exact @List.perm_insertionSort ℕ (fun a b => gapAt bs a ≤ gapAt bs b)
    (fun a b => Real.decidableLE _ _) (List.range (gaps bs).length)

/-- There are as many gaps as condensed pairs. -/
theorem cb_gaps_length (bs : List Bubble) :
    (gaps bs).length = (triuPairs bs.length).length := by
  unfold gaps
  rw [List.length_map]

/-- Claim C2 (amended): provided the run aborts with no error (an
AttributeError inside a pair merge can cut it short, see the
counterexample), the coalescence engine enumerates every unordered pair
(i, j), i < j; assigns each the surface-to-surface gap
euclid(loc_i, loc_j) - (d_i + d_j)/2; builds the stack sorted by
non-increasing gap containing every pair index exactly once; and pops
candidates in non-decreasing gap order, the popped candidates being
exactly the longest ascending prefix with gap below max_distance — so
it stops exactly when no remaining candidate has gap below
max_distance. -/
theorem merge_closest_candidate_order (bs : List Bubble) (max_dist : ℝ)
    (draws : ℕ → Bool) (kw : Bubble)
    (hpres : ∀ b ∈ bs, b.diameter.isSome ∧ b.xy.isSome)
    (hok : (mergeClosestRun bs max_dist draws kw).err = none) :
    (∀ i j : ℕ, (i, j) ∈ triuPairs bs.length ↔ i < j ∧ j < bs.length) ∧
    (∀ k, k < (triuPairs bs.length).length →
      gapAt bs k =
        euclid (xyAt bs (iOf bs.length k)) (xyAt bs (jOf bs.length k)) -
          (dAt bs (iOf bs.length k) + dAt bs (jOf bs.length k)) / 2) ∧
    (kStack bs).Pairwise (fun a b => gapAt bs b ≤ gapAt bs a) ∧
    (kStack bs).Perm (List.range (triuPairs bs.length).length) ∧
    (mergeClosestRun bs max_dist draws kw).popped =
      (kStack bs).reverse.takeWhile (fun k => decide (gapAt bs k < max_dist)) ∧
    ((mergeClosestRun bs max_dist draws kw).popped.map (gapAt bs)).Pairwise
      (· ≤ ·) := by
  have hstack : (kStack bs).reverse = argsortGaps bs := by
    unfold kStack
    rw [List.reverse_reverse]
  have hpopped : (mergeClosestRun bs max_dist draws kw).popped =
      (kStack bs).reverse.takeWhile (fun k => decide (gapAt bs k < max_dist)) := by
    have hall : ((bs.all fun b => b.diameter.isSome) &&
        (bs.all fun b => b.xy.isSome)) = true := by
      rw [Bool.and_eq_true]
      exact ⟨List.all_eq_true.mpr fun b hb => (hpres b hb).1,
        List.all_eq_true.mpr fun b hb => (hpres b hb).2⟩
    unfold mergeClosestRun at hok ⊢
    rw [if_pos hall] at hok ⊢
    by_cases hemp : bs.isEmpty = true
    · rw [if_pos hemp] at hok
      exact absurd hok (by simp [initState])
    rw [if_neg hemp] at hok ⊢
    rw [cb_mergeLoop_popped bs max_dist draws kw _ _ hok]
    rfl
  refine ⟨fun i j => cb_mem_triuPairs bs.length (i, j), cb_gap_formula bs,
    ?_, ?_, hpopped, ?_⟩
  · unfold kStack
    rw [List.pairwise_reverse]
    exact cb_argsort_sorted bs
  · unfold kStack
    refine (List.reverse_perm _).trans ?_
    rw [← cb_gaps_length]
    exact cb_argsort_perm bs
  · rw [hpopped, hstack]
    rw [List.pairwise_map]
    refine List.Pairwise.sublist (List.takeWhile_sublist _) ?_
    exact cb_argsort_sorted bs

/-- Claim C2 witness: two far-apart bubbles (one pair, gap 2 above the
threshold 1) satisfy the presence hypothesis, the run completes without
error, and the candidate trace is the below-threshold prefix of the
sorted stack (here empty). -/
theorem merge_closest_candidate_order_witness :
    (mergeClosestRun [{ diameter := some 1, xy := some (0, 0) },
        { diameter := some 1, xy := some (3, 0) }] 1
        (fun _ => true) {}).popped =
      (kStack [{ diameter := some 1, xy := some (0, 0) },
        { diameter := some 1, xy := some (3, 0) }]).reverse.takeWhile
        (fun k => decide
          (gapAt [{ diameter := some 1, xy := some (0, 0) },
            { diameter := some 1, xy := some (3, 0) }] k < 1)) := by
  have hg : gapAt [{ diameter := some 1, xy := some (0, 0) },
      { diameter := some 1, xy := some (3, 0) }] 0 = 2 := by
    show euclid (0, 0) ((3 : ℝ), 0) - ((1 : ℝ) + 1) / 2 = 2
    unfold euclid
    rw [show ((0 : ℝ) - 3) ^ 2 + ((0 : ℝ) - 0) ^ 2 = 3 ^ 2 by norm_num,
      Real.sqrt_sq (by norm_num : (0 : ℝ) ≤ 3)]
    norm_num
  have hok : (mergeClosestRun [{ diameter := some 1, xy := some (0, 0) },
      { diameter := some 1, xy := some (3, 0) }] 1
      (fun _ => true) {}).err = none := by
    have hpresb : (([{ diameter := some 1, xy := some (0, 0) },
        { diameter := some 1, xy := some (3, 0) }] : List Bubble).all
          (fun b => b.diameter.isSome) &&
        ([{ diameter := some 1, xy := some (0, 0) },
          { diameter := some 1, xy := some (3, 0) }] : List Bubble).all
          (fun b => b.xy.isSome)) = true := rfl
    unfold mergeClosestRun
    rw [if_pos hpresb]
    rw [if_neg (show ¬ ([{ diameter := some 1, xy := some (0, 0) },
      { diameter := some 1, xy := some (3, 0) }] : List Bubble).isEmpty = true
      by simp)]
    rw [show (kStack [{ diameter := some 1, xy := some (0, 0) },
      { diameter := some 1, xy := some (3, 0) }]).reverse = [0] from rfl]
    rw [mergeLoop]
    rw [if_neg (show ¬ gapAt [{ diameter := some 1, xy := some (0, 0) },
      { diameter := some 1, xy := some (3, 0) }] 0 < 1 by rw [hg]; norm_num)]
    rfl
  refine (merge_closest_candidate_order
    [{ diameter := some 1, xy := some (0, 0) },
      { diameter := some 1, xy := some (3, 0) }] 1 (fun _ => true) {}
    ?_ hok).2.2.2.2.1
  intro b hb
  simp only [List.mem_cons, List.not_mem_nil, or_false] at hb
  rcases hb with rfl | rfl
  · exact ⟨rfl, rfl⟩
  · exact ⟨rfl, rfl⟩

/-- Claim C4 (amended): on every nonempty population,
merge_bubbles_closest returns the input unchanged whenever every pair
gap is at least max_distance — in particular on singleton populations,
which have no pairs, for any max_distance at all; with max_distance =
-1 this requires every gap ≥ -1, and deeply overlapping bubbles have
gaps below -1 and do merge, see the counterexample.  On the empty
population the call is not the identity either: scipy pdist
(methods_merge.py line 98) raises ValueError on the 1-dimensional
empty location array, so the call raises instead of returning the empty
list. -/
theorem merge_closest_identity_of_far (bs : List Bubble) (max_dist : ℝ)
    (draws : ℕ → Bool) (kw : Bubble) (hne : bs ≠ [])
    (hpres : ∀ b ∈ bs, b.diameter.isSome ∧ b.xy.isSome)
    (hfar : ∀ g ∈ gaps bs, max_dist ≤ g) :
    merge_bubbles_closest bs max_dist draws kw = Except.ok bs ∧
    merge_bubbles_closest [] max_dist draws kw =
      Except.error "ValueError: A 2-dimensional array must be passed." := by
  have hall : ((bs.all fun b => b.diameter.isSome) &&
      (bs.all fun b => b.xy.isSome)) = true := by
    rw [Bool.and_eq_true]
    exact ⟨List.all_eq_true.mpr fun b hb => (hpres b hb).1,
      List.all_eq_true.mpr fun b hb => (hpres b hb).2⟩
  have hloop : mergeLoop bs max_dist draws kw (kStack bs).reverse
      (initState bs) = initState bs := by
    cases hk : (kStack bs).reverse with
    | nil => rw [mergeLoop]
    | cons k ks =>
      rw [mergeLoop]
      rw [if_neg ?_]
      have hkmem : k ∈ (kStack bs).reverse := by
        rw [hk]
        exact List.mem_cons_self k ks
      have hkmem2 : k ∈ argsortGaps bs := by
        unfold kStack at hkmem
        rw [List.reverse_reverse] at hkmem
        exact hkmem
      have hklt : k < (gaps bs).length :=
        List.mem_range.mp ((cb_argsort_perm bs).mem_iff.mp hkmem2)
      have hg : gapAt bs k ∈ gaps bs := by
        unfold gapAt
        rw [List.getD_eq_getElem _ _ hklt]
        exact List.getElem_mem hklt
      exact not_lt.mpr (hfar _ hg)
  constructor
  · unfold merge_bubbles_closest mergeClosestRun
    rw [if_pos hall,
      if_neg (show ¬ bs.isEmpty = true by
        simp only [List.isEmpty_eq_true]
        exact hne),
      hloop]
    rfl
  · rfl

/-- Claim C4 witness: a single bubble is left unchanged even for
max_distance = -1. -/
theorem merge_closest_identity_of_far_witness :
    merge_bubbles_closest [{ diameter := some 1, xy := some (0, 0) }] (-1)
      (fun _ => true) {} =
      Except.ok [{ diameter := some 1, xy := some (0, 0) }] := by
  refine (merge_closest_identity_of_far
    [{ diameter := some 1, xy := some (0, 0) }] (-1) (fun _ => true) {}
    (List.cons_ne_nil _ _) ?_ ?_).1
  · intro b hb
    rw [List.mem_singleton.mp hb]
    exact ⟨rfl, rfl⟩
  · intro g hg
    exact absurd hg (List.not_mem_nil g)

/-- Claim C4 (counterexample): max_distance = -1 is not the identity on
every population: two fully overlapping bubbles of diameter 10 at the
same location have gap -10 < -1 and merge, so the output has one bubble
instead of two. -/
theorem merge_closest_neg_one_not_identity :
    merge_bubbles_closest
      [{ diameter := some 10, xy := some (0, 0) },
        { diameter := some 10, xy := some (0, 0) }] (-1) (fun _ => true) {} ≠
      Except.ok
        [{ diameter := some 10, xy := some (0, 0) },
          { diameter := some 10, xy := some (0, 0) }] := by
  have hgap0 : gapAt
      [{ diameter := some 10, xy := some (0, 0) },
        { diameter := some 10, xy := some (0, 0) }] 0 = -10 := by
    show euclid (0, 0) (0, 0) - ((10 : ℝ) + 10) / 2 = -10
    unfold euclid
    rw [show ((0 : ℝ) - 0) ^ 2 + ((0 : ℝ) - 0) ^ 2 = 0 by norm_num,
      Real.sqrt_zero]
    norm_num
  have hpresb : (([{ diameter := some 10, xy := some (0, 0) },
      { diameter := some 10, xy := some (0, 0) }] : List Bubble).all
        (fun b => b.diameter.isSome) &&
      ([{ diameter := some 10, xy := some (0, 0) },
        { diameter := some 10, xy := some (0, 0) }] : List Bubble).all
        (fun b => b.xy.isSome)) = true := rfl
  intro hcontra
  unfold merge_bubbles_closest mergeClosestRun at hcontra
  rw [if_pos hpresb] at hcontra
  rw [if_neg (show ¬ ([{ diameter := some 10, xy := some (0, 0) },
    { diameter := some 10, xy := some (0, 0) }] : List Bubble).isEmpty = true
    by simp)] at hcontra
  rw [show (kStack
      [{ diameter := some 10, xy := some (0, 0) },
        { diameter := some 10, xy := some (0, 0) }]).reverse = [0] from rfl]
    at hcontra
  rw [mergeLoop] at hcontra
  rw [if_pos (show gapAt
      [{ diameter := some 10, xy := some (0, 0) },
        { diameter := some 10, xy := some (0, 0) }] 0 < -1 by
    rw [hgap0]; norm_num)] at hcontra
  rw [if_neg (by simp [initState])] at hcontra
  rw [if_neg (by simp [initState])] at hcontra
  have hlen : (1 : ℕ) = 2 := congrArg (fun r => match r with
    | Except.ok l => List.length (α := Bubble) l
    | Except.error _ => 0) hcontra
  exact absurd hlen (by norm_num)

/-- Claim C2 (counterexample): the claim's stopping condition — the
engine considers candidates until no remaining candidate has gap below
max_distance — fails as universally stated: on c2pop with
max_distance 1 the engine pops only candidate 0 and then aborts with an
AttributeError raised inside the pair merge, although candidate 2 has
gap -3/4 < 1 and was never considered. -/
theorem merge_closest_abort_counterexample :
    (mergeClosestRun c2pop 1 (fun _ => true) {}).popped = [0] ∧
    gapAt c2pop 2 < 1 ∧
    (mergeClosestRun c2pop 1 (fun _ => true) {}).err =
      some "AttributeError: volume" := by
  have hg0 : gapAt c2pop 0 = -1 := by
    show euclid (0, 0) (0, 0) - ((1 : ℝ) + 1) / 2 = -1
    unfold euclid
    rw [show ((0 : ℝ) - 0) ^ 2 + ((0 : ℝ) - 0) ^ 2 = 0 by norm_num,
      Real.sqrt_zero]
    norm_num
  have hq : euclid (0, 0) ((1 : ℝ) / 4, 0) = 1 / 4 := by
    unfold euclid
    rw [show ((0 : ℝ) - 1 / 4) ^ 2 + ((0 : ℝ) - 0) ^ 2 = (1 / 4) ^ 2 by norm_num]
    rw [Real.sqrt_sq (by norm_num : (0 : ℝ) ≤ 1 / 4)]
  have hg1 : gapAt c2pop 1 = -(3 / 4) := by
    show euclid (0, 0) ((1 : ℝ) / 4, 0) - ((1 : ℝ) + 1) / 2 = -(3 / 4)
    rw [hq]
    norm_num
  have hg2 : gapAt c2pop 2 = -(3 / 4) := by
    show euclid (0, 0) ((1 : ℝ) / 4, 0) - ((1 : ℝ) + 1) / 2 = -(3 / 4)
    rw [hq]
    norm_num
  have e2s : @List.insertionSort ℕ (fun a b => gapAt c2pop a ≤ gapAt c2pop b)
      (fun a b => Real.decidableLE _ _) [2] = [2] := rfl
  have e12s : @List.insertionSort ℕ (fun a b => gapAt c2pop a ≤ gapAt c2pop b)
      (fun a b => Real.decidableLE _ _) [1, 2] = [1, 2] := by
    rw [List.insertionSort, e2s, List.orderedInsert,
      if_pos (show gapAt c2pop 1 ≤ gapAt c2pop 2 by rw [hg1, hg2])]
  have e012s : @List.insertionSort ℕ (fun a b => gapAt c2pop a ≤ gapAt c2pop b)
      (fun a b => Real.decidableLE _ _) [0, 1, 2] = [0, 1, 2] := by
    rw [List.insertionSort, e12s, List.orderedInsert,
      if_pos (show gapAt c2pop 0 ≤ gapAt c2pop 1 by
        rw [hg0, hg1]
        norm_num)]
  have hstack : (kStack c2pop).reverse = [0, 1, 2] := by
    unfold kStack
    rw [List.reverse_reverse]
    unfold argsortGaps
    rw [show List.range (gaps c2pop).length = [0, 1, 2] from rfl]
    exact e012s
  have hpresb : ((c2pop.all fun b => b.diameter.isSome) &&
      (c2pop.all fun b => b.xy.isSome)) = true := rfl
  have hnemp : ¬ c2pop.isEmpty = true := by
    unfold c2pop
    simp
  refine ⟨?_, ?_, ?_⟩
  · unfold mergeClosestRun
    rw [if_pos hpresb, if_neg hnemp, hstack, mergeLoop]
    rw [if_pos (show gapAt c2pop 0 < 1 by rw [hg0]; norm_num)]
    rw [if_neg (by simp [initState])]
    rw [if_neg (by simp [initState])]
    rfl
  · rw [hg2]
    norm_num
  · unfold mergeClosestRun
    rw [if_pos hpresb, if_neg hnemp, hstack, mergeLoop]
    rw [if_pos (show gapAt c2pop 0 < 1 by rw [hg0]; norm_num)]
    rw [if_neg (by simp [initState])]
    rw [if_neg (by simp [initState])]
    rfl

end Cobubbles
